import Mathlib

/-! KeePassXC browser service: access policy, entry query pipeline, URL matching.

A shallow embedding of `src/browser/BrowserService.cpp`.  Strings are Lean
strings, Qt containers are lists, entries are values.  Qt's URL classes are
an interface (`QUrlApi`) the service is parameterised by; the per-entry
policy record (`BrowserEntryConfig`) and the group settings follow their
description in the specification, their sources not being part of
`BrowserService.cpp`.
-/

namespace BrowserService

/-! ## Strings -/

/-- The test `QString::isEmpty`. -/
def qIsEmpty (s : String) : Bool := decide (s = "")

/-- Whether `sub` occurs somewhere in `s`, on character lists. -/
def containsChars (sub : List Char) : List Char → Bool
  | [] => sub.isEmpty
  | c :: cs => sub.isPrefixOf (c :: cs) || containsChars sub cs

/-- The test `QString::contains(const QString&)`, case sensitive. -/
def qContains (s sub : String) : Bool := containsChars sub.data s.data

/-- The test `QString::startsWith`. -/
def qStartsWith (s start : String) : Bool := start.data.isPrefixOf s.data

/-- The test `QString::endsWith`. -/
def qEndsWith (s ending : String) : Bool := ending.data.isSuffixOf s.data

/-- Left-to-right removal of the occurrences of a non-empty `sub`; `skip` counts
the characters of the occurrence being dropped. -/
def removeChars (sub : List Char) : Nat → List Char → List Char
  | _, [] => []
  | skip + 1, _ :: cs => removeChars sub skip cs
  | 0, c :: cs =>
    if sub.isPrefixOf (c :: cs) then removeChars sub (sub.length - 1) cs
    else c :: removeChars sub 0 cs

/-- The method `QString::remove(const QString&)`: every occurrence of `sub` is removed;
an empty `sub` removes nothing. -/
def qRemove (s sub : String) : String :=
  if sub.data.isEmpty then s else String.mk (removeChars sub.data 0 s.data)

/-- The method `QString::chop`: the last `n` characters are removed. -/
def qChop (s : String) (n : Nat) : String := String.mk (s.data.take (s.data.length - n))

/-- Splitting a character list at every `sep`, empty parts kept. -/
def splitChars (sep : Char) : List Char → List (List Char)
  | [] => [[]]
  | c :: cs =>
    if c = sep then [] :: splitChars sep cs
    else
      match splitChars sep cs with
      | [] => [[c]]
      | part :: parts => (c :: part) :: parts

/-- The last part of `QString::split(sep)`, as in `host.split('.').last()`. -/
def qSplitLast (s : String) (sep : Char) : String :=
  String.mk ((splitChars sep s.data).getLastD [])

/-- The characters of the class `[<>\^...]` of the regular expression in `handleURL`:
less-than, greater-than, caret, backtick, opening brace, bar, closing brace. -/
def illegalCharacters : List Char :=
  ['<', '>', '^', Char.ofNat 96, Char.ofNat 123, '|', Char.ofNat 125]

/-- Whether the regular expression of `handleURL` has a match in `s`. -/
def hasIllegalCharacter (s : String) : Bool := s.data.any (fun c => decide (c ∈ illegalCharacters))

/-! ## Data model -/

/-- The three outcomes of an access check (`BrowserService::Access`). -/
inductive Access where
  | Denied
  | Unknown
  | Allowed
  deriving DecidableEq

/-- The values of `Group::TriState`. -/
inductive TriState where
  | Inherit
  | Enable
  | Disable
  deriving DecidableEq

/-- The read-only settings consulted through `browserSettings()`. -/
structure BrowserSettings where
  alwaysAllowAccess : Bool
  httpAuthPermission : Bool
  allowExpiredCredentials : Bool
  matchUrlScheme : Bool
  bestMatchOnly : Bool
  searchInAllDatabases : Bool
  deriving DecidableEq

/-- Modelled from the spec: the class `BrowserEntryConfig` (BrowserEntryConfig.h/.cpp
are not among the sources).  The policy record of an entry: the set of allowed
hostnames, the set of denied hostnames and the realm string (empty when no realm
was stored).  The sets are duplicate-free lists. -/
structure BrowserEntryConfig where
  allowedHosts : List String
  deniedHosts : List String
  realm : String
  deriving DecidableEq

/-- Modelled from the spec: a group as far as the service reads it (`Group` is not
among the sources): its name, the recycle-bin flag and its tri-state custom
settings; a key without an item is `Inherit`. -/
structure Group where
  name : String
  isRecycled : Bool
  customData : List (String × TriState)
  deriving DecidableEq

/-- Modelled from the spec: an entry as far as the service reads it (`Entry` is not
among the sources).  `additionalUrls` are the values of the attributes whose key
starts with `KP2A_URL`, in key order; `groupPath` is the owning group followed by its
ancestors up to the root; `config` is the attached policy record, absent when
no decision was recorded. -/
structure Entry where
  uuid : String
  title : String
  username : String
  password : String
  url : String
  additionalUrls : List String
  isExpired : Bool
  isRecycled : Bool
  customData : List (String × String)
  groupPath : List Group
  config : Option BrowserEntryConfig
  deriving DecidableEq

/-! ## Policy record operations -/

/-- Modelled from the spec: set union of one host into a duplicate-free list
(`merge into the existing sets (set union, no duplicates)`). -/
def hostUnion (hosts : List String) (host : String) : List String :=
  if host ∈ hosts then hosts else hosts ++ [host]

/-- The default-constructed record `BrowserEntryConfig config;`. -/
def BrowserEntryConfig.empty : BrowserEntryConfig :=
  { allowedHosts := [], deniedHosts := [], realm := "" }

/-- Modelled from the spec: `BrowserEntryConfig::isAllowed`, membership in the allow-set. -/
def BrowserEntryConfig.isAllowed (c : BrowserEntryConfig) (host : String) : Bool :=
  decide (host ∈ c.allowedHosts)

/-- Modelled from the spec: `BrowserEntryConfig::isDenied`, membership in the deny-set. -/
def BrowserEntryConfig.isDenied (c : BrowserEntryConfig) (host : String) : Bool :=
  decide (host ∈ c.deniedHosts)

/-- Modelled from the spec: `BrowserEntryConfig::allow`, which unions the host into
the allow-set (the specification names no other effect). -/
def BrowserEntryConfig.allow (c : BrowserEntryConfig) (host : String) : BrowserEntryConfig :=
  { c with allowedHosts := hostUnion c.allowedHosts host }

/-- Modelled from the spec: `BrowserEntryConfig::deny`, which unions the host into
the deny-set and takes it out of the allow-set.  The specification asks for `Denied` after
`allow` and then `deny` for the same host, and the decision asks the allow-set first, so a
denied host does not stay in the allow-set. -/
def BrowserEntryConfig.deny (c : BrowserEntryConfig) (host : String) : BrowserEntryConfig :=
  { c with
    allowedHosts := c.allowedHosts.filter (fun allowed => allowed != host)
    deniedHosts := hostUnion c.deniedHosts host }

/-- Modelled from the spec: `BrowserEntryConfig::setRealm`, which overwrites the realm. -/
def BrowserEntryConfig.setRealm (c : BrowserEntryConfig) (realm : String) : BrowserEntryConfig :=
  { c with realm := realm }

/-- Modelled from the spec: `BrowserEntryConfig::load`.  It fails (first component
`false`, the record left as it was) when the entry has no policy record, and
otherwise replaces the record by the stored one. -/
def BrowserEntryConfig.load (c : BrowserEntryConfig) (entry : Entry) : Bool × BrowserEntryConfig :=
  match entry.config with
  | none => (false, c)
  | some stored => (true, stored)

/-- Modelled from the spec: `BrowserEntryConfig::save`, which persists the record
through the entry. -/
def BrowserEntryConfig.save (c : BrowserEntryConfig) (entry : Entry) : Entry :=
  { entry with config := some c }

/-! ## Access policy (`BrowserService.cpp`, lines 913-945 and 988-1009) -/

/-- The method `BrowserService::allowEntry`. -/
def allowEntry (entry : Entry) (siteHost formUrl realm : String) : Entry :=
  let config := (BrowserEntryConfig.empty.load entry).2
  let config := config.allow siteHost
  let config := if !qIsEmpty formUrl && siteHost != formUrl then config.allow formUrl else config
  let config := if !qIsEmpty realm then config.setRealm realm else config
  config.save entry

/-- The method `BrowserService::denyEntry`. -/
def denyEntry (entry : Entry) (siteHost formUrl realm : String) : Entry :=
  let config := (BrowserEntryConfig.empty.load entry).2
  let config := config.deny siteHost
  let config := if !qIsEmpty formUrl && siteHost != formUrl then config.deny formUrl else config
  let config := if !qIsEmpty realm then config.setRealm realm else config
  config.save entry

/-- The method `BrowserService::checkAccess`. -/
def checkAccess (settings : BrowserSettings) (entry : Entry) (siteHost formHost realm : String) :
    Access :=
  if entry.isExpired && !settings.allowExpiredCredentials then
    Access.Denied
  else
    let loaded := BrowserEntryConfig.empty.load entry
    let config := loaded.2
    if !loaded.1 then
      Access.Unknown
    else if config.isAllowed siteHost && (qIsEmpty formHost || config.isAllowed formHost) then
      Access.Allowed
    else if config.isDenied siteHost || (!qIsEmpty formHost && config.isDenied formHost) then
      Access.Denied
    else if !qIsEmpty realm && config.realm != realm then
      Access.Denied
    else
      Access.Unknown

/-- The ordered rule list of the specification for `decide`: the first rule that
applies gives the result. -/
def decideSpec (settings : BrowserSettings) (entry : Entry) (siteHost formHost realm : String) :
    Access :=
  if entry.isExpired = true ∧ settings.allowExpiredCredentials = false then
    Access.Denied
  else
    match entry.config with
    | none => Access.Unknown
    | some record =>
      if siteHost ∈ record.allowedHosts ∧ (formHost = "" ∨ formHost ∈ record.allowedHosts) then
        Access.Allowed
      else if siteHost ∈ record.deniedHosts ∨ (formHost ≠ "" ∧ formHost ∈ record.deniedHosts) then
        Access.Denied
      else if realm ≠ "" ∧ realm ≠ record.realm then
        Access.Denied
      else
        Access.Unknown

/-! ## Qt URL classes -/

/-- The values of `QAbstractSocket::NetworkLayerProtocol` that `isIpAddress` tells apart. -/
inductive NetworkLayerProtocol where
  | IPv4Protocol
  | IPv6Protocol
  | UnknownNetworkLayerProtocol
  deriving DecidableEq

/-- The operations of `QUrl` and `QHostAddress` that the service calls, over a type `U`
of URL values.  Qt is a library outside the repository: the service is verified for
every implementation of this interface.
`ofString` is the constructor `QUrl(const QString&)`; `port` is `-1` without an explicit
port; `adjusted` is `adjusted(QUrl::RemoveFragment | QUrl::RemoveUserInfo)`;
`matchesNone`, `matchesRemoveQuery` and `matchesStripTrailingSlash` are `matches` with
the options `QUrl::None`, `QUrl::RemoveQuery` and `QUrl::StripTrailingSlash`; `protocol` is
`QHostAddress(host).protocol()`. -/
structure QUrlApi (U : Type) where
  ofString : String → U
  fromUserInput : String → U
  isValid : U → Bool
  scheme : U → String
  host : U → String
  port : U → Int
  path : U → String
  hasQuery : U → Bool
  hasFragment : U → Bool
  topLevelDomain : U → String
  setScheme : U → String → U
  setHost : U → String → U
  setPath : U → String → U
  adjusted : U → U
  matchesNone : U → U → Bool
  matchesRemoveQuery : U → U → Bool
  isParentOf : U → U → Bool
  matchesStripTrailingSlash : U → U → Bool
  protocol : String → NetworkLayerProtocol

/-! ## Domain analysis and URL matching (`BrowserService.cpp`, lines 1116-1255) -/

/-- The method `BrowserService::isIpAddress`. -/
def isIpAddress {U : Type} (api : QUrlApi U) (host : String) : Bool :=
  decide (api.protocol host = NetworkLayerProtocol.IPv4Protocol)
    || decide (api.protocol host = NetworkLayerProtocol.IPv6Protocol)

/-- The method `BrowserService::getTopLevelDomainFromUrl`. -/
def getTopLevelDomainFromUrl {U : Type} (api : QUrlApi U) (url : String) : String :=
  let qurl := api.fromUserInput url
  let host := api.host qurl
  if isIpAddress api host then
    host
  else if qIsEmpty host || !qContains host (api.topLevelDomain qurl) then
    ""
  else
    let host := qChop host (api.topLevelDomain qurl).length
    let baseDomain := qSplitLast host '.'
    baseDomain ++ api.topLevelDomain qurl

/-- The URL `entryQUrl` that `handleURL` builds from the stored URL (lines 1172-1186):
parsed as it is when it contains `://`, else through `fromUserInput` with the scheme
set to `https` under scheme matching; then, under `omitWwwSubdomain`, a host that
starts with `www.` is replaced by that host with `www.` removed. -/
def entryQUrl {U : Type} (api : QUrlApi U) (settings : BrowserSettings) (entryUrl : String)
    (omitWwwSubdomain : Bool) : U :=
  let parsed :=
    if qContains entryUrl "://" then
      api.ofString entryUrl
    else
      let fromInput := api.fromUserInput entryUrl
      if settings.matchUrlScheme then api.setScheme fromInput "https" else fromInput
  if omitWwwSubdomain && qStartsWith (api.host parsed) "www." then
    api.setHost parsed (qRemove (api.host parsed) "www.")
  else
    parsed

/-- The method `BrowserService::handleURL`. -/
def handleURL {U : Type} (api : QUrlApi U) (settings : BrowserSettings)
    (entryUrl siteUrl formUrl : String) (omitWwwSubdomain : Bool) : Bool :=
  if qIsEmpty entryUrl then
    false
  else
    let entryQUrl := entryQUrl api settings entryUrl omitWwwSubdomain
    if qStartsWith siteUrl "file://" then
      decide (entryUrl = formUrl)
    else if qIsEmpty (api.host entryQUrl) then
      false
    else
      let siteQUrl := api.ofString siteUrl
      if decide (api.port entryQUrl > 0) && api.port entryQUrl != api.port siteQUrl then
        false
      else if settings.matchUrlScheme && !qIsEmpty (api.scheme entryQUrl)
          && api.scheme entryQUrl != api.scheme siteQUrl then
        false
      else if hasIllegalCharacter entryUrl then
        false
      else if getTopLevelDomainFromUrl api (api.host siteQUrl)
          != getTopLevelDomainFromUrl api (api.host entryQUrl) then
        false
      else if qEndsWith (api.host siteQUrl) (api.host entryQUrl) then
        true
      else
        false

/-! ## Ranking (`BrowserService.cpp`, lines 889-911, 1037-1108, 1372-1385) -/

/-- The method `BrowserService::getEntryURLs`: the primary URL, then the additional ones. -/
def getEntryURLs (entry : Entry) : List String :=
  entry.url :: entry.additionalUrls

/-- The lambda `getPriority` of `sortPriority`. -/
def getPriority {U : Type} (api : QUrlApi U) (adjustedSiteUrl adjustedFormUrl : U)
    (givenUrl : String) : Int :=
  let url := api.adjusted (api.fromUserInput givenUrl)
  let url :=
    if qIsEmpty (api.scheme url) || !qContains givenUrl "://" then api.setScheme url "https"
    else url
  let url :=
    if qIsEmpty (api.path url) && !api.hasFragment url && !api.hasQuery url then
      api.setPath url "/"
    else url
  if !api.isValid url || (!qContains (api.host url) "." && api.host url != "localhost")
      || api.scheme url != api.scheme adjustedSiteUrl then
    0
  else if api.matchesNone url adjustedSiteUrl || api.matchesNone url adjustedFormUrl then
    100
  else if api.matchesRemoveQuery url adjustedSiteUrl
      || api.matchesRemoveQuery url adjustedFormUrl then
    90
  else if api.isParentOf url adjustedSiteUrl || api.isParentOf url adjustedFormUrl then
    85
  else if api.host url == api.host adjustedSiteUrl then
    80
  else if api.host url == api.host adjustedFormUrl then
    70
  else if qEndsWith (api.host adjustedSiteUrl) (api.host url) then
    60
  else if qEndsWith (api.host adjustedFormUrl) (api.host url) then
    50
  else
    0

/-- The value `*std::max_element(begin, end)` of a list of integers.  The empty list,
on which the source dereferences the end iterator, is given `0`; `getEntryURLs`
never returns it. -/
def maxElement : List Int → Int
  | [] => 0
  | p :: ps => ps.foldl max p

/-- The method `BrowserService::sortPriority`. -/
def sortPriority {U : Type} (api : QUrlApi U) (urls : List String) (siteUrl formUrl : String) :
    Int :=
  let adjustedSiteUrl := api.adjusted (api.ofString siteUrl)
  let adjustedFormUrl := api.adjusted (api.ofString formUrl)
  let priorityList := urls.map (getPriority api adjustedSiteUrl adjustedFormUrl)
  maxElement priorityList

/-- The method `QMultiMap::insert` on a map kept as a list in ascending key order: the
new item is placed before the items of an equal key, so the most recently inserted
value of a key comes first. -/
def multiMapInsert {α : Type} : List (Int × α) → Int → α → List (Int × α)
  | [], key, value => [(key, value)]
  | (k, v) :: items, key, value =>
    if k < key then (k, v) :: multiMapInsert items key value
    else (key, value) :: (k, v) :: items

/-- The method `QMultiMap::values(key)`: the values of a key, most recently inserted first. -/
def multiMapValues {α : Type} (items : List (Int × α)) (key : Int) : List α :=
  (items.filter (fun item => decide (item.1 = key))).map Prod.snd

/-- The method `QMultiMap::uniqueKeys`: the keys in ascending order, each once. -/
def multiMapUniqueKeys {α : Type} (items : List (Int × α)) : List Int :=
  (items.map Prod.fst).dedup

/-- The result loop of `sortEntries` (lines 900-908): the values of each key are
appended, and in best-match-only mode the loop stops at the first non-empty batch. -/
def collectResults (bestMatchOnly : Bool) (priorities : List (Int × Entry)) :
    List Int → List Entry → List Entry
  | [], results => results
  | key :: keys, results =>
    let results := results ++ multiMapValues priorities key
    if bestMatchOnly && !results.isEmpty then results
    else collectResults bestMatchOnly priorities keys results

/-- The method `BrowserService::sortEntries`. -/
def sortEntries {U : Type} (api : QUrlApi U) (settings : BrowserSettings)
    (pwEntries : List Entry) (siteUrl formUrl : String) : List Entry :=
  let priorities := pwEntries.foldl
    (fun map entry =>
      multiMapInsert map (sortPriority api (getEntryURLs entry) siteUrl formUrl) entry) []
  let keys := (multiMapUniqueKeys priorities).insertionSort (fun l r => l > r)
  collectResults settings.bestMatchOnly priorities keys []

/-- The score of an entry in `sortEntries`: `sortPriority(getEntryURLs(entry), siteUrl, formUrl)`. -/
def entryScore {U : Type} (api : QUrlApi U) (siteUrl formUrl : String) (entry : Entry) : Int :=
  sortPriority api (getEntryURLs entry) siteUrl formUrl

/-- The map `priorities` that `sortEntries` builds (lines 892-895). -/
def sortPriorities {U : Type} (api : QUrlApi U) (pwEntries : List Entry)
    (siteUrl formUrl : String) : List (Int × Entry) :=
  pwEntries.foldl
    (fun map entry =>
      multiMapInsert map (sortPriority api (getEntryURLs entry) siteUrl formUrl) entry) []

/-- The list `keys` of `sortEntries` after `std::sort` (lines 897-898). -/
def sortedKeys {U : Type} (api : QUrlApi U) (pwEntries : List Entry)
    (siteUrl formUrl : String) : List Int :=
  (multiMapUniqueKeys (sortPriorities api pwEntries siteUrl formUrl)).insertionSort
    (fun l r => l > r)

/-- The entries of the input with a given score, last one first. -/
def scoreGroup {U : Type} (api : QUrlApi U) (pwEntries : List Entry)
    (siteUrl formUrl : String) (key : Int) : List Entry :=
  (pwEntries.filter (fun entry => decide (entryScore api siteUrl formUrl entry = key))).reverse

/-! ## Entry query pipeline (`BrowserService.cpp`, lines 316-442) -/

/-- Modelled from the spec: the constant `TRUE_STR` (declared outside
`BrowserService.cpp`), the text of an enabled flag. -/
def TRUE_STR : String := "true"

/-- The constant `BrowserService::OPTION_ONLY_HTTP_AUTH`. -/
def OPTION_ONLY_HTTP_AUTH : String := "BrowserOnlyHttpAuth"

/-- The constant `BrowserService::OPTION_NOT_HTTP_AUTH`. -/
def OPTION_NOT_HTTP_AUTH : String := "BrowserNotHttpAuth"

/-- Modelled from the spec: `CustomData::contains` on the custom data of an entry
(`CustomData` is not among the sources). -/
def customDataContains (data : List (String × String)) (key : String) : Bool :=
  (data.lookup key).isSome

/-- Modelled from the spec: `CustomData::value` on the custom data of an entry, the
empty string for a missing key. -/
def customDataValue (data : List (String × String)) (key : String) : String :=
  (data.lookup key).getD ""

/-- Modelled from the spec: `Group::resolveCustomDataTriState` along the path from the
owning group to the root: the first explicit setting of the key on the way up;
`Inherit`, which every caller treats as not enabled, when the root is passed
without one. -/
def resolveCustomDataTriState : List Group → String → TriState
  | [], _ => TriState.Inherit
  | group :: ancestors, key =>
    match group.customData.lookup key with
    | some TriState.Enable => TriState.Enable
    | some TriState.Disable => TriState.Disable
    | _ => resolveCustomDataTriState ancestors key

/-- The service state that `findMatchingEntries` reads and writes: the member
`m_dialogActive`, and what `isDatabaseOpened()` returns (a current database widget
exists and is not locked). -/
structure ServiceState where
  m_dialogActive : Bool
  databaseOpened : Bool
  deriving DecidableEq

/-- What happened in a run of the access-control dialog (`BrowserAccessControlDialog`,
an external collaborator): the rows whose `disableAccess` signal fired while it was
open, whether `exec()` returned `QDialog::Accepted`, the rows of
`getSelectedEntries()`, the value of `remember()`, and what `isDatabaseOpened()`
returns once the dialog has closed. -/
structure DialogOutcome where
  disabled : List Nat
  accepted : Bool
  selected : List Nat
  remember : Bool
  databaseOpened : Bool
  deriving DecidableEq

/-- The two lists that the authorisation loop of `findMatchingEntries` fills. -/
structure Classified where
  pwEntries : List Entry
  pwEntriesToConfirm : List Entry
  deriving DecidableEq

/-- The first filter of the loop (lines 335-340): the entry is flagged http-auth-only,
by itself or through its group. -/
def onlyHttpAuth (entry : Entry) : Bool :=
  (customDataContains entry.customData OPTION_ONLY_HTTP_AUTH
      && customDataValue entry.customData OPTION_ONLY_HTTP_AUTH == TRUE_STR)
    || decide (resolveCustomDataTriState entry.groupPath OPTION_ONLY_HTTP_AUTH = TriState.Enable)

/-- The second filter of the loop (lines 342-347): the entry is flagged not-http-auth,
by itself or through its group. -/
def notHttpAuth (entry : Entry) : Bool :=
  (customDataContains entry.customData OPTION_NOT_HTTP_AUTH
      && customDataValue entry.customData OPTION_NOT_HTTP_AUTH == TRUE_STR)
    || decide (resolveCustomDataTriState entry.groupPath OPTION_NOT_HTTP_AUTH = TriState.Enable)

/-- One pass of the body of the authorisation loop (lines 333-370); `continue` leaves
both lists as they are. -/
def classifyStep (settings : BrowserSettings) (siteHost formHost realm : String) (httpAuth : Bool)
    (lists : Classified) (entry : Entry) : Classified :=
  let alwaysAllowAccess := settings.alwaysAllowAccess
  let ignoreHttpAuth := settings.httpAuthPermission
  if !httpAuth && onlyHttpAuth entry then
    lists
  else if httpAuth && notHttpAuth entry then
    lists
  else if !ignoreHttpAuth && httpAuth then
    { lists with pwEntriesToConfirm := lists.pwEntriesToConfirm ++ [entry] }
  else
    match checkAccess settings entry siteHost formHost realm with
    | Access.Denied => lists
    | Access.Unknown =>
      if alwaysAllowAccess then { lists with pwEntries := lists.pwEntries ++ [entry] }
      else { lists with pwEntriesToConfirm := lists.pwEntriesToConfirm ++ [entry] }
    | Access.Allowed => { lists with pwEntries := lists.pwEntries ++ [entry] }

/-- The authorisation loop of `findMatchingEntries` (lines 329-371) over the entries
that `searchEntries` returned. -/
def classifyEntries (settings : BrowserSettings) (found : List Entry)
    (siteHost formHost realm : String) (httpAuth : Bool) : Classified :=
  found.foldl (classifyStep settings siteHost formHost realm httpAuth)
    { pwEntries := [], pwEntriesToConfirm := [] }

/-- Replacement of the element at a row by its image under `f`; other rows, and
rows outside the list, change nothing. -/
def modifyRow (f : Entry → Entry) : Nat → List Entry → List Entry
  | _, [] => []
  | 0, entry :: entries => f entry :: entries
  | row + 1, entry :: entries => entry :: modifyRow f row entries

/-- What `confirmEntries` returns and leaves behind: the returned list, the entries of
the batch as they are after the dialog (their policy records may have changed), and
the service state. -/
structure Confirmation where
  allowedEntries : List Entry
  batch : List Entry
  state : ServiceState
  deriving DecidableEq

/-- The method `BrowserService::confirmEntries`.  The dialog is the function `dialog` of
the items, the site URL and the http-auth flag; its rows index the batch it was given.
Entries are pointers in the source: a row that was denied in the dialog and then
selected is seen with both changes. -/
def confirmEntries (dialog : List Entry → String → Bool → DialogOutcome) (state : ServiceState)
    (pwEntriesToConfirm : List Entry) (siteUrl siteHost formUrl realm : String)
    (httpAuth : Bool) : Confirmation :=
  if pwEntriesToConfirm.isEmpty || state.m_dialogActive then
    { allowedEntries := [], batch := pwEntriesToConfirm, state := state }
  else
    let outcome := dialog pwEntriesToConfirm siteUrl httpAuth
    let denied := outcome.disabled.foldl
      (fun batch row => modifyRow (fun entry => denyEntry entry siteHost formUrl realm) row batch)
      pwEntriesToConfirm
    let remembered :=
      if outcome.accepted && outcome.remember then
        outcome.selected.foldl
          (fun batch row =>
            modifyRow (fun entry => allowEntry entry siteHost formUrl realm) row batch)
          denied
      else denied
    let allowedEntries :=
      if outcome.accepted then outcome.selected.filterMap (fun row => remembered.get? row)
      else []
    { allowedEntries := allowedEntries, batch := remembered,
      state := { m_dialogActive := false, databaseOpened := outcome.databaseOpened } }

/-- The method `BrowserService::findMatchingEntries`, from the list `found` that
`searchEntries(siteUrl, formUrl, keyList)` returned.  `prepareEntry` turns an entry into
its JSON object; the result pairs the JSON array with the service state left behind. -/
def findMatchingEntries {U J : Type} (api : QUrlApi U) (settings : BrowserSettings)
    (prepareEntry : Entry → J) (dialog : List Entry → String → Bool → DialogOutcome)
    (state : ServiceState) (found : List Entry) (siteUrl formUrl realm : String)
    (httpAuth : Bool) : List J × ServiceState :=
  let siteHost := api.host (api.ofString siteUrl)
  let formHost := api.host (api.ofString formUrl)
  let lists := classifyEntries settings found siteHost formHost realm httpAuth
  let confirmation :=
    confirmEntries dialog state lists.pwEntriesToConfirm siteUrl siteHost formHost realm httpAuth
  let selectedEntriesToConfirm := confirmation.allowedEntries
  let pwEntries :=
    if !selectedEntriesToConfirm.isEmpty then lists.pwEntries ++ selectedEntriesToConfirm
    else lists.pwEntries
  if pwEntries.isEmpty then
    ([], confirmation.state)
  else if !confirmation.state.databaseOpened then
    ([], confirmation.state)
  else
    ((sortEntries api settings pwEntries siteUrl formUrl).map prepareEntry, confirmation.state)

/-- The http-auth applicability filters of the loop (lines 335-347) let the entry pass:
it is not flagged http-auth-only on a request that is not an HTTP-auth request, and
not flagged not-http-auth on one that is. -/
def passesHttpAuthFilters (httpAuth : Bool) (entry : Entry) : Bool :=
  !(!httpAuth && onlyHttpAuth entry) && !(httpAuth && notHttpAuth entry)

/-- The candidate entries of the authorisation step: the found entries that pass the
http-auth applicability filters, in the order found. -/
def candidateEntries (httpAuth : Bool) (found : List Entry) : List Entry :=
  found.filter (passesHttpAuthFilters httpAuth)

/-- The request is routed to HTTP-auth confirmation (line 350). -/
def routedToHttpAuthConfirmation (settings : BrowserSettings) (httpAuth : Bool) : Bool :=
  !settings.httpAuthPermission && httpAuth

/-- The entry is accepted without confirmation: the request is not routed to HTTP-auth
confirmation and the access check says `Allowed`, or `Unknown` under always-allow-access. -/
def acceptedWithoutConfirmation (settings : BrowserSettings) (siteHost formHost realm : String)
    (httpAuth : Bool) (entry : Entry) : Bool :=
  !routedToHttpAuthConfirmation settings httpAuth
    && (decide (checkAccess settings entry siteHost formHost realm = Access.Allowed)
      || (decide (checkAccess settings entry siteHost formHost realm = Access.Unknown)
        && settings.alwaysAllowAccess))

/-- The entry needs confirmation: the request is routed to HTTP-auth confirmation, or the
access check says `Unknown` without always-allow-access. -/
def needsConfirmation (settings : BrowserSettings) (siteHost formHost realm : String)
    (httpAuth : Bool) (entry : Entry) : Bool :=
  routedToHttpAuthConfirmation settings httpAuth
    || (decide (checkAccess settings entry siteHost formHost realm = Access.Unknown)
      && !settings.alwaysAllowAccess)

/-! ## Entry search (`BrowserService.cpp`, lines 730-767 and 1139-1161) -/

/-- The constant `BrowserService::OPTION_HIDE_ENTRY`. -/
def OPTION_HIDE_ENTRY : String := "BrowserHideEntry"

/-- The constant `BrowserService::OPTION_OMIT_WWW`. -/
def OPTION_OMIT_WWW : String := "BrowserOmitWww"

/-- Modelled from the spec: `Entry::path` (`Entry` is not among the sources), the
fully-qualified group path followed by the title: the names of the groups below the
root, from the top down to the owning group, each followed by a slash, then the title. -/
def entryPath (entry : Entry) : String :=
  String.join ((entry.groupPath.reverse.drop 1).map (fun group => group.name ++ "/"))
    ++ entry.title

/-- Modelled from the spec: `Entry::getAllUrls` (`Entry` is not among the sources), the
primary URL followed by the additional URLs. -/
def getAllUrls (entry : Entry) : List String :=
  entry.url :: entry.additionalUrls

/-- The method `BrowserService::shouldIncludeEntry`. -/
def shouldIncludeEntry {U : Type} (api : QUrlApi U) (settings : BrowserSettings) (entry : Entry)
    (url submitUrl : String) (omitWwwSubdomain : Bool) : Bool :=
  if qStartsWith url "keepassxc://by-uuid/" then
    qEndsWith url ("by-uuid/" ++ entry.uuid)
  else if qStartsWith url "keepassxc://by-path/" then
    qEndsWith url ("by-path/" ++ entryPath entry)
  else
    (getAllUrls entry).any
      (fun entryUrl => handleURL api settings entryUrl url submitUrl omitWwwSubdomain)

/-- Modelled from the spec: a group as `rootGroup->groupsRecursive(true)` presents it
(`Group` is not among the sources): the group, its ancestors up to the root, and its
entries in order. -/
structure GroupNode where
  group : Group
  ancestors : List Group
  entries : List Entry
  deriving DecidableEq

/-- Modelled from the spec: a database as far as the search reads it (`Database` is
not among the sources): no root group, or the groups of the tree in the order of
`rootGroup->groupsRecursive(true)`, the root first; and the custom data of its metadata,
which holds the shared keys of the callers it is connected to. -/
structure Database where
  groupsRecursive : Option (List GroupNode)
  metadataCustomData : List (String × String)
  deriving DecidableEq

/-- The test `group->resolveCustomDataTriState(key)` on a group of the traversal. -/
def GroupNode.resolve (node : GroupNode) (key : String) : TriState :=
  resolveCustomDataTriState (node.group :: node.ancestors) key

/-- The body of the entry loop of `searchEntries` (lines 749-762). -/
def searchEntryStep {U : Type} (api : QUrlApi U) (settings : BrowserSettings)
    (siteUrl formUrl : String) (omitWwwSubdomain : Bool) (entries : List Entry)
    (entry : Entry) : List Entry :=
  if entry.isRecycled
      || (customDataContains entry.customData OPTION_HIDE_ENTRY
        && customDataValue entry.customData OPTION_HIDE_ENTRY == TRUE_STR) then
    entries
  else if !shouldIncludeEntry api settings entry siteUrl formUrl omitWwwSubdomain then
    entries
  else if !entries.contains entry then
    entries ++ [entry]
  else
    entries

/-- The body of the group loop of `searchEntries` (lines 740-763). -/
def searchGroupStep {U : Type} (api : QUrlApi U) (settings : BrowserSettings)
    (siteUrl formUrl : String) (entries : List Entry) (node : GroupNode) : List Entry :=
  if node.group.isRecycled
      || decide (node.resolve OPTION_HIDE_ENTRY = TriState.Enable) then
    entries
  else
    let omitWwwSubdomain := decide (node.resolve OPTION_OMIT_WWW = TriState.Enable)
    node.entries.foldl (searchEntryStep api settings siteUrl formUrl omitWwwSubdomain) entries

/-- The method `BrowserService::searchEntries(db, siteUrl, formUrl)`. -/
def searchEntries {U : Type} (api : QUrlApi U) (settings : BrowserSettings) (db : Database)
    (siteUrl formUrl : String) : List Entry :=
  match db.groupsRecursive with
  | none => []
  | some groups => groups.foldl (searchGroupStep api settings siteUrl formUrl) []

/-- The insertion of lines 760-762: the entry is appended unless the list has it. -/
def appendNew (entries : List Entry) (entry : Entry) : List Entry :=
  if entries.contains entry then entries else entries ++ [entry]

/-- The entries of one group that the search keeps, as the specification words it: none
of a recycled or hidden group; otherwise those that are not recycled, not flagged hidden,
and for which `shouldIncludeEntry` holds with the omit-www setting of the group. -/
def matchingEntries {U : Type} (api : QUrlApi U) (settings : BrowserSettings)
    (siteUrl formUrl : String) (node : GroupNode) : List Entry :=
  if node.group.isRecycled = true ∨ node.resolve OPTION_HIDE_ENTRY = TriState.Enable then []
  else
    node.entries.filter (fun entry =>
      decide (entry.isRecycled = false)
        && !(customDataContains entry.customData OPTION_HIDE_ENTRY
          && customDataValue entry.customData OPTION_HIDE_ENTRY == TRUE_STR)
        && shouldIncludeEntry api settings entry siteUrl formUrl
          (decide (node.resolve OPTION_OMIT_WWW = TriState.Enable)))

/-- The matching entries of a database in group-traversal and entry order. -/
def matchingEntriesOfDatabase {U : Type} (api : QUrlApi U) (settings : BrowserSettings)
    (db : Database) (siteUrl formUrl : String) : List Entry :=
  match db.groupsRecursive with
  | none => []
  | some groups =>
    groups.foldr (fun node found => matchingEntries api settings siteUrl formUrl node ++ found) []

/-- The URL that `getPriority` scores (lines 1049-1060): the stored URL read through
`fromUserInput` without fragment and user info, with the scheme `https` when it has none,
and with the path `/` when it has neither path nor query nor fragment. -/
def priorityUrl {U : Type} (api : QUrlApi U) (givenUrl : String) : U :=
  let url := api.adjusted (api.fromUserInput givenUrl)
  let url :=
    if qIsEmpty (api.scheme url) || !qContains givenUrl "://" then api.setScheme url "https"
    else url
  if qIsEmpty (api.path url) && !api.hasFragment url && !api.hasQuery url then
    api.setPath url "/"
  else url

/-- The reject test of `getPriority` (lines 1062-1066): the URL is invalid, or its host
has no dot and is not `localhost`, or its scheme differs from the scheme of the site URL. -/
def priorityRejected {U : Type} (api : QUrlApi U) (adjustedSiteUrl url : U) : Bool :=
  !api.isValid url || (!qContains (api.host url) "." && api.host url != "localhost")
    || api.scheme url != api.scheme adjustedSiteUrl

/-! ## Hostname truncation and the search over the connected databases
(`BrowserService.cpp`, lines 769-809 and 1122-1137) -/

/-- The position `QString::indexOf` of a character, `-1` when it does not occur. -/
def indexOfChars (c : Char) : List Char → Int
  | [] => -1
  | x :: xs =>
    if x = c then 0
    else if indexOfChars c xs < 0 then -1 else indexOfChars c xs + 1

/-- The method `QString::indexOf(".")`. -/
def qIndexOf (s : String) (c : Char) : Int := indexOfChars c s.data

/-- The method `QString::count(".")`. -/
def qCount (s : String) (c : Char) : Nat := s.data.count c

/-- The method `QString::mid(position)` for a position that is not negative. -/
def qMid (s : String) (position : Int) : String := String.mk (s.data.drop position.toNat)

/-- The method `BrowserService::removeFirstDomain`: the return value and the hostname as
the call leaves it. -/
def removeFirstDomain (hostname : String) : Bool × String :=
  let pos := qIndexOf hostname '.'
  if pos < 0 then
    (false, hostname)
  else if qCount hostname '.' > 1 then
    let hostname := qMid hostname (pos + 1)
    (!qIsEmpty hostname, hostname)
  else
    (false, hostname)

/-- Modelled from the spec: the constant `CustomData::BrowserKeyPrefix` (declared outside
`BrowserService.cpp`), the start of the custom-data names under which a database keeps
the shared keys of its callers. -/
def BrowserKeyPrefix : String := "KPXC_BROWSER_"

/-- The lambda `databaseConnected` of `searchEntries` (lines 773-781). -/
def databaseConnected (keyList : List (String × String)) (db : Database) : Bool :=
  keyList.any (fun keyPair =>
    let key := customDataValue db.metadataCustomData (BrowserKeyPrefix ++ keyPair.1)
    !qIsEmpty key && keyPair.2 == key)

/-- The databases that `searchEntries` looks at: `openDatabases` lists
`dbWidget->database()` for the widgets of `getMainWindow()->getOpenDatabases()`, absent
where the pointer is null, and `currentDatabase` is `getDatabase()`. -/
structure DatabaseWidgets where
  openDatabases : List (Option Database)
  currentDatabase : Option Database
  deriving DecidableEq

/-- The list `databases` of `searchEntries` (lines 783-797).  Without a current database
the source hands a null pointer to `databaseConnected`; the list is then taken empty. -/
def connectedDatabases (settings : BrowserSettings) (widgets : DatabaseWidgets)
    (keyList : List (String × String)) : List Database :=
  if settings.searchInAllDatabases then
    widgets.openDatabases.filterMap (fun database =>
      match database with
      | some db => if databaseConnected keyList db then some db else none
      | none => none)
  else
    match widgets.currentDatabase with
    | some db => if databaseConnected keyList db then [db] else []
    | none => []

/-- One pass of the body of the do-while loop (lines 803-805): the results of
`searchEntries(db, siteUrl, formUrl)` for every database are appended. -/
def searchPass {U : Type} (api : QUrlApi U) (settings : BrowserSettings)
    (databases : List Database) (siteUrl formUrl : String) (entries : List Entry) : List Entry :=
  databases.foldl (fun found db => found ++ searchEntries api settings db siteUrl formUrl) entries

/-- The do-while loop of `searchEntries` (lines 802-806) with a bound on the number of
passes; `none` when the bound is used up before the loop ends. -/
def searchLoop {U : Type} (api : QUrlApi U) (settings : BrowserSettings)
    (databases : List Database) (siteUrl formUrl : String) :
    Nat → String → List Entry → Option (List Entry)
  | 0, _, _ => none
  | fuel + 1, hostname, entries =>
    let entries := searchPass api settings databases siteUrl formUrl entries
    if entries.isEmpty && (removeFirstDomain hostname).1 then
      searchLoop api settings databases siteUrl formUrl fuel (removeFirstDomain hostname).2 entries
    else
      some entries

/-- The passes of the do-while loop when no pass finds an entry, with the same bound: for
each pass the value of `hostname` during the pass and the site URL that the pass hands to
`searchEntries(db, siteUrl, formUrl)`. -/
def searchLoopPasses (siteUrl : String) : Nat → String → List (String × String)
  | 0, _ => []
  | fuel + 1, hostname =>
    (hostname, siteUrl) ::
      (if (removeFirstDomain hostname).1 then
        searchLoopPasses siteUrl fuel (removeFirstDomain hostname).2
      else [])

/-- The method `BrowserService::searchEntries(siteUrl, formUrl, keyList)`.  The loop is
given one pass more than the hostname has characters, which is enough for it to end. -/
def searchEntriesInDatabases {U : Type} (api : QUrlApi U) (settings : BrowserSettings)
    (widgets : DatabaseWidgets) (siteUrl formUrl : String) (keyList : List (String × String)) :
    Option (List Entry) :=
  let databases := connectedDatabases settings widgets keyList
  let hostname := api.host (api.ofString siteUrl)
  searchLoop api settings databases siteUrl formUrl (hostname.data.length + 1) hostname []

/-! ## URL identity (`BrowserService.cpp`, lines 489-514) -/

/-- The test `QChar::isSpace`: the ASCII white space, next line, and the Unicode
separators. -/
def qIsSpace (c : Char) : Bool :=
  decide (c = ' ') || (decide (9 ≤ c.toNat) && decide (c.toNat ≤ 13))
    || decide (c.toNat = 0x85) || decide (c.toNat = 0xA0) || decide (c.toNat = 0x1680)
    || (decide (0x2000 ≤ c.toNat) && decide (c.toNat ≤ 0x200A))
    || decide (c.toNat = 0x2028) || decide (c.toNat = 0x2029) || decide (c.toNat = 0x202F)
    || decide (c.toNat = 0x205F) || decide (c.toNat = 0x3000)

/-- The method `QString::trimmed`: white space is removed from both ends. -/
def qTrimmed (s : String) : String :=
  String.mk (((s.data.dropWhile qIsSpace).reverse.dropWhile qIsSpace).reverse)

/-- The lambda `trimUrl` of `isUrlIdentical`: the URL is trimmed, and one trailing slash
is removed. -/
def trimUrl (url : String) : String :=
  let url := qTrimmed url
  if qEndsWith url "/" then qChop url 1 else url

/-- The method `BrowserService::isUrlIdentical`. -/
def isUrlIdentical {U : Type} (api : QUrlApi U) (first second : String) : Bool :=
  if qIsEmpty first || qIsEmpty second then
    false
  else
    let firstUrl := trimUrl first
    let secondUrl := trimUrl second
    if firstUrl == secondUrl then
      true
    else
      api.matchesStripTrailingSlash (api.ofString firstUrl) (api.ofString secondUrl)

/-! ## Password references in `updateEntry` (`BrowserService.cpp`, lines 657-666) -/

/-- The two methods of `EntryAttributes` that the reference loop of `updateEntry` calls
(`EntryAttributes` is not among the sources): `isReference(PasswordKey)`, and
`referenceUuid(PasswordKey)` in hex. -/
structure EntryAttributesApi where
  isReference : Entry → Bool
  referenceUuid : Entry → String

/-- The hex form of the null `QUuid`. -/
def nullUuid : String := "00000000000000000000000000000000"

/-- Modelled from the spec: `Group::findEntryByUuid` from the root group (`Group` is not
among the sources): the first entry of the tree with the identifier, if there is one. -/
def findEntryByUuid (db : Database) (uuid : String) : Option Entry :=
  match db.groupsRecursive with
  | none => none
  | some groups => (groups.flatMap (fun node => node.entries)).find? (fun entry => entry.uuid == uuid)

/-- The reference loop of `updateEntry` (lines 657-666) with a bound on the number of
passes: `none` when the bound is used up before the loop ends, `some none` when the loop
ends in `return false`, and `some (some entry)` when it ends with the entry to update. -/
def updateEntryReferenceLoop (attributes : EntryAttributesApi) (db : Database) :
    Nat → Entry → Option (Option Entry)
  | 0, _ => none
  | fuel + 1, entry =>
    if attributes.isReference entry then
      let referenceUuid := attributes.referenceUuid entry
      if !(referenceUuid == nullUuid) then
        match findEntryByUuid db referenceUuid with
        | none => some none
        | some referenced => updateEntryReferenceLoop attributes db fuel referenced
      else
        updateEntryReferenceLoop attributes db fuel entry
    else
      some (some entry)

/-! ## A plain implementation of the URL interface

It reads `scheme://user@host:port/path?query#fragment` without case folding or
percent-encoding and knows a handful of public suffixes.  The theorems below hold for every
implementation of `QUrlApi`; this one runs the service on concrete URLs. -/

/-- A URL value split into its parts. -/
structure SimpleUrl where
  scheme : String
  userInfo : String
  host : String
  port : Int
  path : String
  query : Option String
  fragment : Option String
  deriving DecidableEq

/-- The text before and after the first occurrence of `sep`, if there is one. -/
def breakAt (sep : List Char) : List Char → Option (List Char × List Char)
  | [] => if sep.isEmpty then some ([], []) else none
  | c :: cs =>
    if sep.isPrefixOf (c :: cs) then some ([], (c :: cs).drop sep.length)
    else (breakAt sep cs).map (fun parts => (c :: parts.1, parts.2))

/-- The decimal value of a list of digits. -/
def digitsValue (digits : List Char) : Nat :=
  digits.foldl (fun value c => 10 * value + (c.toNat - 48)) 0

/-- Host and port of an authority without user info: the text after the last colon
is the port when it is a non-empty run of digits. -/
def splitHostPort (authority : List Char) : List Char × Int :=
  match breakAt [':'] authority.reverse with
  | none => (authority, -1)
  | some (portReversed, hostReversed) =>
    if !portReversed.isEmpty && portReversed.all Char.isDigit then
      (hostReversed.reverse, Int.ofNat (digitsValue portReversed.reverse))
    else (authority, -1)

/-- A host text that is refused, as Qt refuses it: it starts with a dot or has two dots
in a row.  The URL is then left without host. -/
def hostRefused (host : List Char) : Bool :=
  ['.'].isPrefixOf host || containsChars ['.', '.'] host

/-- The parts of the text that follows the scheme separator. -/
def SimpleUrl.ofParts (scheme : String) (rest : List Char) : SimpleUrl :=
  let isDelimiter := fun c : Char => c = '/' || c = '?' || c = '#'
  let authority := rest.takeWhile (fun c => !isDelimiter c)
  let tail := rest.dropWhile (fun c => !isDelimiter c)
  let path := tail.takeWhile (fun c => !(c = '?' || c = '#'))
  let afterPath := tail.dropWhile (fun c => !(c = '?' || c = '#'))
  let query :=
    match afterPath with
    | '?' :: q => some (String.mk (q.takeWhile (fun c => !(c = '#'))))
    | _ => none
  let fragment := (breakAt ['#'] afterPath).map (fun parts => String.mk parts.2)
  let userHost :=
    match breakAt ['@'] authority with
    | some (user, host) => (user, host)
    | none => ([], authority)
  let hostPort := splitHostPort userHost.2
  let hostPort := if hostRefused hostPort.1 then ([], hostPort.2) else hostPort
  { scheme := scheme, userInfo := String.mk userHost.1, host := String.mk hostPort.1,
    port := hostPort.2, path := String.mk path, query := query, fragment := fragment }

/-- Parsing of a URL text as it is. -/
def SimpleUrl.ofString (text : String) : SimpleUrl :=
  match breakAt "://".data text.data with
  | some (scheme, rest) => SimpleUrl.ofParts (String.mk scheme) rest
  | none => { (SimpleUrl.ofParts "" []) with path := text }

/-- Parsing of user input: a text without scheme separator is read as an `http` URL. -/
def SimpleUrl.fromUserInput (text : String) : SimpleUrl :=
  if qContains text "://" then SimpleUrl.ofString text
  else SimpleUrl.ofParts "http" text.data

/-- The public suffixes known to the plain implementation, with their leading dot. -/
def knownSuffixes : List String :=
  [".co.uk", ".co.jp", ".com", ".org", ".net", ".uk", ".jp", ".io"]

/-- The longest run of trailing labels that is a known public suffix, each label
preceded by a dot; the empty string when there is none. -/
def longestKnownSuffix : List (List Char) → String
  | [] => ""
  | label :: labels =>
    let level := String.mk ((label :: labels).foldr (fun part text => '.' :: part ++ text) [])
    if level ∈ knownSuffixes then level else longestKnownSuffix labels

/-- The top-level domain of the host as Qt computes it: the host is split at its dots,
empty parts are skipped, and the longest known public suffix among the trailing labels
is returned with its leading dot. -/
def SimpleUrl.topLevelDomain (url : SimpleUrl) : String :=
  longestKnownSuffix ((splitChars '.' url.host.data).filter (fun part => !part.isEmpty))

/-- One decimal part of a dotted IPv4 literal. -/
def isOctet (part : List Char) : Bool :=
  !part.isEmpty && part.all Char.isDigit && decide (part.length ≤ 3)
    && decide (digitsValue part ≤ 255)

/-- Classification of a host text as an IP literal. -/
def simpleProtocol (host : String) : NetworkLayerProtocol :=
  let parts := splitChars '.' host.data
  if decide (parts.length = 4) && parts.all isOctet then NetworkLayerProtocol.IPv4Protocol
  else if decide (2 ≤ (splitChars ':' host.data).length - 1)
      && host.data.all (fun c => c = ':' || c.isDigit || ('a' ≤ c && c ≤ 'f')
        || ('A' ≤ c && c ≤ 'F')) then
    NetworkLayerProtocol.IPv6Protocol
  else NetworkLayerProtocol.UnknownNetworkLayerProtocol

/-- The test `isParentOf` on plain URLs: same scheme and authority, and the path of
the child continues the path of the parent below a slash. -/
def SimpleUrl.isParentOf (parent child : SimpleUrl) : Bool :=
  (qIsEmpty parent.scheme || parent.scheme == child.scheme)
    && parent.userInfo == child.userInfo && parent.host == child.host
    && parent.port == child.port
    && qStartsWith child.path parent.path
    && decide (parent.path.data.length < child.path.data.length)
    && (qEndsWith parent.path "/"
      || child.path.data.get? parent.path.data.length == some '/')

/-- The path without its trailing slash; the path `/` alone is kept, as Qt keeps it. -/
def stripTrailingSlash (path : String) : String :=
  if qEndsWith path "/" && decide (1 < path.data.length) then qChop path 1 else path

/-- The plain implementation of the URL interface. -/
def simpleApi : QUrlApi SimpleUrl :=
  { ofString := SimpleUrl.ofString
    fromUserInput := SimpleUrl.fromUserInput
    isValid := fun url => !url.host.data.any (fun c => c = ' ' || decide (c ∈ illegalCharacters))
    scheme := fun url => url.scheme
    host := fun url => url.host
    port := fun url => url.port
    path := fun url => url.path
    hasQuery := fun url => url.query.isSome
    hasFragment := fun url => url.fragment.isSome
    topLevelDomain := SimpleUrl.topLevelDomain
    setScheme := fun url scheme => { url with scheme := scheme }
    setHost := fun url host => { url with host := host }
    setPath := fun url path => { url with path := path }
    adjusted := fun url => { url with fragment := none, userInfo := "" }
    matchesNone := fun a b => decide (a = b)
    matchesRemoveQuery := fun a b => decide ({ a with query := none } = { b with query := none })
    isParentOf := SimpleUrl.isParentOf
    matchesStripTrailingSlash := fun a b =>
      decide ({ a with path := stripTrailingSlash a.path }
        = { b with path := stripTrailingSlash b.path })
    protocol := simpleProtocol }

/-! ## Sample data -/

/-- A group without settings. -/
def sampleGroup : Group := { name := "Root", isRecycled := false, customData := [] }

/-- An entry for `github.com` without a policy record. -/
def sampleEntry : Entry :=
  { uuid := "00000000000000000000000000000001", title := "GitHub", username := "user",
    password := "secret", url := "https://github.com", additionalUrls := [],
    isExpired := false, isRecycled := false, customData := [], groupPath := [sampleGroup],
    config := none }

/-- Settings with every switch off. -/
def sampleSettings : BrowserSettings :=
  { alwaysAllowAccess := false, httpAuthPermission := false, allowExpiredCredentials := false,
    matchUrlScheme := false, bestMatchOnly := false, searchInAllDatabases := false }

/-- The sample entry with `github.com` in its allow-set. -/
def allowedEntry : Entry :=
  { sampleEntry with
    uuid := "00000000000000000000000000000002"
    config := some { allowedHosts := ["github.com"], deniedHosts := [], realm := "" } }

/-- The sample entry with `github.com` in its deny-set. -/
def deniedEntry : Entry :=
  { sampleEntry with
    uuid := "00000000000000000000000000000003"
    config := some { allowedHosts := [], deniedHosts := ["github.com"], realm := "" } }

/-- The sample entry flagged not-http-auth. -/
def notHttpAuthEntry : Entry :=
  { sampleEntry with
    uuid := "00000000000000000000000000000004"
    customData := [(OPTION_NOT_HTTP_AUTH, TRUE_STR)] }

/-- A dialog in which the user selects the first row and accepts, while the database
stays open. -/
def acceptFirstDialog (_items : List Entry) (_siteUrl : String) (_httpAuth : Bool) :
    DialogOutcome :=
  { disabled := [], accepted := true, selected := [0], remember := false, databaseOpened := true }

/-- A dialog in which the user selects the first row and accepts, the database having
been locked in the meantime. -/
def lockedDialog (_items : List Entry) (_siteUrl : String) (_httpAuth : Bool) : DialogOutcome :=
  { disabled := [], accepted := true, selected := [0], remember := true, databaseOpened := false }

/-- An entry for `https://github.com/login` in the root group. -/
def loginEntry : Entry :=
  { sampleEntry with uuid := "00000000000000000000000000000005", url := "https://github.com/login" }

/-- An entry for `https://hub.com` in the root group. -/
def hubEntry : Entry :=
  { sampleEntry with uuid := "00000000000000000000000000000006", url := "https://hub.com" }

/-- The sample entry flagged hidden. -/
def hiddenEntry : Entry :=
  { sampleEntry with
    uuid := "00000000000000000000000000000007"
    customData := [(OPTION_HIDE_ENTRY, TRUE_STR)] }

/-- A database with the root group holding five entries and a recycle bin holding one. -/
def sampleDatabase : Database :=
  { groupsRecursive := some
      [{ group := sampleGroup, ancestors := [],
         entries := [loginEntry, hubEntry, sampleEntry, hiddenEntry, allowedEntry] },
       { group := { name := "Recycle Bin", isRecycled := true, customData := [] },
         ancestors := [sampleGroup], entries := [deniedEntry] }]
    metadataCustomData := [("KPXC_BROWSER_chrome-laptop", "c2hhcmVkLWtleQ==")] }

/-- An entry for `https://subdomain.example.com/`, with the slash. -/
def slashEntry : Entry :=
  { sampleEntry with
    uuid := "00000000000000000000000000000008", url := "https://subdomain.example.com/" }

/-- An entry for `https://subdomain.example.com`, without the slash. -/
def noSlashEntry : Entry :=
  { sampleEntry with
    uuid := "00000000000000000000000000000009", url := "https://subdomain.example.com" }

/-- A second entry for `https://github.com/login`. -/
def secondLoginEntry : Entry :=
  { sampleEntry with uuid := "0000000000000000000000000000000a", url := "https://github.com/login" }

/-- An entry for `https://github.com/keepassxreboot`. -/
def otherPathEntry : Entry :=
  { sampleEntry with
    uuid := "0000000000000000000000000000000b", url := "https://github.com/keepassxreboot" }

/-- An entry for `http://github.com`, which scores 0 for an `https` site. -/
def httpEntry : Entry :=
  { sampleEntry with uuid := "0000000000000000000000000000000c", url := "http://github.com" }

/-- Settings with best-match-only mode on and every other switch off. -/
def bestMatchSettings : BrowserSettings :=
  { sampleSettings with bestMatchOnly := true }

/-- The open databases of the sample: the sample database, which is also the current
one. -/
def sampleWidgets : DatabaseWidgets :=
  { openDatabases := [some sampleDatabase], currentDatabase := some sampleDatabase }

/-- The key list of a caller that the sample database is connected to. -/
def sampleKeyList : List (String × String) := [("chrome-laptop", "c2hhcmVkLWtleQ==")]

/-- The sample entry, expired. -/
def expiredEntry : Entry :=
  { sampleEntry with uuid := "0000000000000000000000000000000d", isExpired := true }

/-- A state with no dialog on screen and the database open. -/
def idleState : ServiceState := { m_dialogActive := false, databaseOpened := true }

/-- Whether a character is a lower-case hex digit. -/
def isHexDigit (c : Char) : Bool := c.isDigit || (decide ('a' ≤ c) && decide (c ≤ 'f'))

/-- Attributes read off the password text: a password of the form
`{REF:P@` field `:` search text `}` is a reference, and its UUID is the search text
when that is 32 hex digits, the null UUID otherwise. -/
def sampleAttributes : EntryAttributesApi :=
  { isReference := fun entry =>
      qStartsWith entry.password "\x7bREF:P@" && qEndsWith entry.password "\x7d"
    referenceUuid := fun entry =>
      let searchText := (qChop entry.password 1).data.drop 9
      if decide (searchText.length = 32) && searchText.all isHexDigit then String.mk searchText
      else nullUuid }

/-- An entry whose password refers to the password of the sample entry. -/
def referringEntry : Entry :=
  { sampleEntry with
    uuid := "0000000000000000000000000000000e"
    password := "\x7bREF:P@I:00000000000000000000000000000001\x7d" }

/-- An entry whose password is a reference by title, which has no UUID. -/
def titleReferenceEntry : Entry :=
  { sampleEntry with
    uuid := "0000000000000000000000000000000f"
    password := "\x7bREF:P@T:GitHub\x7d" }

/-- An entry whose password refers to the password of `secondCycleEntry`. -/
def firstCycleEntry : Entry :=
  { sampleEntry with
    uuid := "00000000000000000000000000000010"
    password := "\x7bREF:P@I:00000000000000000000000000000011\x7d" }

/-- An entry whose password refers to the password of `firstCycleEntry`. -/
def secondCycleEntry : Entry :=
  { sampleEntry with
    uuid := "00000000000000000000000000000011"
    password := "\x7bREF:P@I:00000000000000000000000000000010\x7d" }

/-- A database whose root group holds the sample entry and the entries with password
references. -/
def referenceDatabase : Database :=
  { groupsRecursive := some
      [{ group := sampleGroup, ancestors := [],
         entries := [sampleEntry, referringEntry, titleReferenceEntry, firstCycleEntry,
           secondCycleEntry] }]
    metadataCustomData := [] }

/-! ## Theorems: access policy -/

theorem mem_hostUnion_self (hosts : List String) (host : String) :
    host ∈ hostUnion hosts host := by
  unfold hostUnion
  split <;> simp_all

theorem mem_hostUnion_of_mem {hosts : List String} {h : String} (host : String)
    (hm : h ∈ hosts) : h ∈ hostUnion hosts host := by
  unfold hostUnion
  split <;> simp_all

theorem realm_bne_iff (stored realm : String) :
    ((stored != realm) = true) ↔ realm ≠ stored := by
  simp only [bne_iff_ne, ne_eq]
  exact ⟨fun h e => h e.symm, fun h e => h e.symm⟩

/-- C1: `checkAccess` equals the first applicable rule of the ordered rule list of the
specification, for every entry, site host, form host and realm. -/
theorem checkAccess_eq_decideSpec (settings : BrowserSettings) (entry : Entry)
    (siteHost formHost realm : String) :
    checkAccess settings entry siteHost formHost realm
      = decideSpec settings entry siteHost formHost realm := by
  unfold checkAccess decideSpec
  cases hexp : entry.isExpired <;> cases hall : settings.allowExpiredCredentials <;>
    cases hcfg : entry.config <;>
    simp only [BrowserEntryConfig.load, hcfg, BrowserEntryConfig.isAllowed,
      BrowserEntryConfig.isDenied, qIsEmpty, Bool.and_eq_true, Bool.or_eq_true,
      Bool.not_eq_true', decide_eq_true_eq, decide_eq_false_iff_not, realm_bne_iff] <;>
    simp

theorem allowEntry_isExpired (entry : Entry) (siteHost formUrl realm : String) :
    (allowEntry entry siteHost formUrl realm).isExpired = entry.isExpired := by
  simp [allowEntry, BrowserEntryConfig.save]

theorem denyEntry_isExpired (entry : Entry) (siteHost formUrl realm : String) :
    (denyEntry entry siteHost formUrl realm).isExpired = entry.isExpired := by
  simp [denyEntry, BrowserEntryConfig.save]

/-- The policy record an entry carries after `allowEntry`. -/
theorem allowEntry_config (entry : Entry) (siteHost formUrl realm : String) :
    ∃ record, (allowEntry entry siteHost formUrl realm).config = some record
      ∧ siteHost ∈ record.allowedHosts
      ∧ (formUrl = "" ∨ formUrl ∈ record.allowedHosts) := by
  by_cases hf : formUrl = ""
  · by_cases hr : realm = "" <;>
      simp [allowEntry, BrowserEntryConfig.save, BrowserEntryConfig.allow,
        BrowserEntryConfig.setRealm, qIsEmpty, hf, hr, mem_hostUnion_self]
  · by_cases hs : siteHost = formUrl
    · subst hs
      by_cases hr : realm = "" <;>
        simp [allowEntry, BrowserEntryConfig.save, BrowserEntryConfig.allow,
          BrowserEntryConfig.setRealm, qIsEmpty, hr, mem_hostUnion_self]
    · by_cases hr : realm = "" <;>
        simp [allowEntry, BrowserEntryConfig.save, BrowserEntryConfig.allow,
          BrowserEntryConfig.setRealm, qIsEmpty, hf, hs, hr, mem_hostUnion_self,
          mem_hostUnion_of_mem]

/-- C2: allow/decide round trip.  After `allowEntry(entry, siteHost, formHost, realm)` on an
entry that is not expired (with or without a policy record), `checkAccess` for the same
site host and form host returns `Allowed` for every request realm. -/
theorem checkAccess_allowEntry (settings : BrowserSettings) (entry : Entry)
    (siteHost formHost realm realm2 : String) (hexp : entry.isExpired = false) :
    checkAccess settings (allowEntry entry siteHost formHost realm) siteHost formHost realm2
      = Access.Allowed := by
  obtain ⟨record, hcfg, hsite, hform⟩ := allowEntry_config entry siteHost formHost realm
  rw [checkAccess_eq_decideSpec]
  unfold decideSpec
  rw [allowEntry_isExpired, hexp, hcfg]
  simp [hsite, hform]

/-- Witness of C2 on the sample entry. -/
theorem checkAccess_allowEntry_witness :
    sampleEntry.isExpired = false ∧
    checkAccess sampleSettings
      (allowEntry sampleEntry "github.com" "login.github.com" "") "github.com"
      "login.github.com" "Restricted" = Access.Allowed :=
  ⟨rfl, checkAccess_allowEntry sampleSettings sampleEntry "github.com" "login.github.com" ""
    "Restricted" rfl⟩

/-- The policy record an entry carries after `denyEntry` with empty form host and realm. -/
theorem denyEntry_config (entry : Entry) (host : String) :
    ∃ record, (denyEntry entry host "" "").config = some record
      ∧ host ∈ record.deniedHosts
      ∧ host ∉ record.allowedHosts := by
  simp [denyEntry, BrowserEntryConfig.save, BrowserEntryConfig.deny, qIsEmpty,
    mem_hostUnion_self]

/-- After `denyEntry(entry, host, "", "")` on an entry that is not expired, the access check
for the host returns `Denied`, whatever policy record the entry had. -/
theorem checkAccess_denyEntry_denied (settings : BrowserSettings) (entry : Entry) (host : String)
    (hexp : entry.isExpired = false) :
    checkAccess settings (denyEntry entry host "" "") host "" "" = Access.Denied := by
  obtain ⟨record, hcfg, hdenied, hna⟩ := denyEntry_config entry host
  rw [checkAccess_eq_decideSpec]
  unfold decideSpec
  rw [denyEntry_isExpired, hexp, hcfg]
  simp [hna, hdenied]

/-- C3: deny after allow wins.  For every entry that is not expired (with or without a
policy record) and every host, after `allowEntry(entry, host, "", "")` followed by
`denyEntry(entry, host, "", "")` the access check `checkAccess(entry, host, "", "")`
returns `Denied`. -/
theorem checkAccess_deny_after_allow (settings : BrowserSettings) (entry : Entry)
    (host : String) (hexp : entry.isExpired = false) :
    checkAccess settings (denyEntry (allowEntry entry host "" "") host "" "") host "" ""
      = Access.Denied :=
  checkAccess_denyEntry_denied settings (allowEntry entry host "" "") host
    ((allowEntry_isExpired entry host "" "").trans hexp)

/-- Witness of C3 on the sample entry: `Unknown` without a policy record, `Allowed` after
`allowEntry` for `github.com`, `Denied` after the subsequent `denyEntry`, the host then
being in the deny-set only. -/
theorem checkAccess_deny_after_allow_witness :
    sampleEntry.isExpired = false
    ∧ checkAccess sampleSettings sampleEntry "github.com" "" "" = Access.Unknown
    ∧ checkAccess sampleSettings (allowEntry sampleEntry "github.com" "" "") "github.com" "" ""
      = Access.Allowed
    ∧ (denyEntry (allowEntry sampleEntry "github.com" "" "") "github.com" "" "").config
      = some { allowedHosts := [], deniedHosts := ["github.com"], realm := "" }
    ∧ checkAccess sampleSettings
        (denyEntry (allowEntry sampleEntry "github.com" "" "") "github.com" "" "")
        "github.com" "" "" = Access.Denied :=
  ⟨rfl, by decide, by decide, by decide,
    checkAccess_deny_after_allow sampleSettings sampleEntry "github.com" rfl⟩

/-! ## Theorems: the authorisation loop -/

/-- The loop of `findMatchingEntries` appends, in the order found, the entries that pass
the filters and are accepted to the first list, and those that pass the filters and
need confirmation to the second. -/
theorem foldl_classifyStep (settings : BrowserSettings) (siteHost formHost realm : String)
    (httpAuth : Bool) (found : List Entry) (lists : Classified) :
    found.foldl (classifyStep settings siteHost formHost realm httpAuth) lists
      = { pwEntries := lists.pwEntries ++ found.filter (fun entry =>
            passesHttpAuthFilters httpAuth entry
              && acceptedWithoutConfirmation settings siteHost formHost realm httpAuth entry)
          pwEntriesToConfirm := lists.pwEntriesToConfirm ++ found.filter (fun entry =>
            passesHttpAuthFilters httpAuth entry
              && needsConfirmation settings siteHost formHost realm httpAuth entry) } := by
  induction found generalizing lists with
  | nil => simp
  | cons entry rest ih =>
    rw [List.foldl_cons, ih]
    unfold classifyStep passesHttpAuthFilters acceptedWithoutConfirmation needsConfirmation
      routedToHttpAuthConfirmation
    cases httpAuth <;> cases h1 : onlyHttpAuth entry <;> cases h2 : notHttpAuth entry <;>
      cases h3 : settings.httpAuthPermission <;> cases h4 : settings.alwaysAllowAccess <;>
      cases h5 : checkAccess settings entry siteHost formHost realm <;>
      simp [List.filter_cons, h1, h2, h3, h4, h5]

/-- The two lists of the authorisation loop as filters of the found entries. -/
theorem classifyEntries_eq (settings : BrowserSettings) (found : List Entry)
    (siteHost formHost realm : String) (httpAuth : Bool) :
    classifyEntries settings found siteHost formHost realm httpAuth
      = { pwEntries := (candidateEntries httpAuth found).filter
            (acceptedWithoutConfirmation settings siteHost formHost realm httpAuth)
          pwEntriesToConfirm := (candidateEntries httpAuth found).filter
            (needsConfirmation settings siteHost formHost realm httpAuth) } := by
  unfold classifyEntries candidateEntries
  rw [foldl_classifyStep]
  simp [List.filter_filter, Bool.and_comm]

/-- C4: for a request that is not routed to HTTP-auth confirmation (`httpAuth` is false, or
HTTP-auth confirmation is bypassed), every candidate entry (a found entry that passes the
http-auth applicability filters) is classified by `checkAccess`: a `Denied` entry is in
neither list; an `Allowed` entry is in the accepted list; an `Unknown` entry is in the
accepted list under always-allow-access and in the confirmation batch otherwise. -/
theorem classifyEntries_by_checkAccess (settings : BrowserSettings) (found : List Entry)
    (siteHost formHost realm : String) (httpAuth : Bool)
    (hroute : httpAuth = false ∨ settings.httpAuthPermission = true)
    (entry : Entry) (hcand : entry ∈ candidateEntries httpAuth found) :
    (checkAccess settings entry siteHost formHost realm = Access.Denied →
      entry ∉ (classifyEntries settings found siteHost formHost realm httpAuth).pwEntries
      ∧ entry ∉
        (classifyEntries settings found siteHost formHost realm httpAuth).pwEntriesToConfirm)
    ∧ (checkAccess settings entry siteHost formHost realm = Access.Allowed →
      entry ∈ (classifyEntries settings found siteHost formHost realm httpAuth).pwEntries
      ∧ entry ∉
        (classifyEntries settings found siteHost formHost realm httpAuth).pwEntriesToConfirm)
    ∧ (checkAccess settings entry siteHost formHost realm = Access.Unknown →
      (settings.alwaysAllowAccess = true →
        entry ∈ (classifyEntries settings found siteHost formHost realm httpAuth).pwEntries
        ∧ entry ∉
          (classifyEntries settings found siteHost formHost realm httpAuth).pwEntriesToConfirm)
      ∧ (settings.alwaysAllowAccess = false →
        entry ∈
          (classifyEntries settings found siteHost formHost realm httpAuth).pwEntriesToConfirm
        ∧ entry ∉
          (classifyEntries settings found siteHost formHost realm httpAuth).pwEntries)) := by
  have hrouted : routedToHttpAuthConfirmation settings httpAuth = false := by
    unfold routedToHttpAuthConfirmation
    rcases hroute with h | h <;> simp [h]
  rw [classifyEntries_eq]
  simp only [List.mem_filter, acceptedWithoutConfirmation, needsConfirmation, hrouted]
  refine ⟨fun h => ?_, fun h => ?_, fun h => ⟨fun ha => ?_, fun ha => ?_⟩⟩ <;>
    simp [h, hcand] <;> simp [ha]

/-- Witness of C4: with `httpAuth` off, the allowed sample entry is accepted and is not
in the confirmation batch. -/
theorem classifyEntries_by_checkAccess_witness :
    ((false = false ∨ sampleSettings.httpAuthPermission = true)
      ∧ allowedEntry ∈ candidateEntries false [sampleEntry, allowedEntry, deniedEntry])
    ∧ (allowedEntry ∈ (classifyEntries sampleSettings [sampleEntry, allowedEntry, deniedEntry]
          "github.com" "" "" false).pwEntries
      ∧ allowedEntry ∉ (classifyEntries sampleSettings [sampleEntry, allowedEntry, deniedEntry]
          "github.com" "" "" false).pwEntriesToConfirm) :=
  ⟨⟨Or.inl rfl, by decide⟩,
    (classifyEntries_by_checkAccess sampleSettings [sampleEntry, allowedEntry, deniedEntry]
      "github.com" "" "" false (Or.inl rfl) allowedEntry (by decide)).2.1 (by decide)⟩

/-- C5: on an HTTP-auth request with HTTP-auth confirmation not bypassed, every entry that
passes the http-auth-only / not-http-auth filters is placed in the confirmation batch, in
the order found, and no entry is accepted without confirmation; `checkAccess` plays no
part. -/
theorem classifyEntries_httpAuth (settings : BrowserSettings) (found : List Entry)
    (siteHost formHost realm : String) (hperm : settings.httpAuthPermission = false) :
    classifyEntries settings found siteHost formHost realm true
      = { pwEntries := [], pwEntriesToConfirm := candidateEntries true found } := by
  rw [classifyEntries_eq]
  simp [acceptedWithoutConfirmation, needsConfirmation, routedToHttpAuthConfirmation, hperm]

/-- Witness of C5: the allowed, the denied and the undecided sample entry all go to the
confirmation batch; the entry flagged not-http-auth is dropped. -/
theorem classifyEntries_httpAuth_witness :
    sampleSettings.httpAuthPermission = false
    ∧ classifyEntries sampleSettings [allowedEntry, notHttpAuthEntry, deniedEntry, sampleEntry]
        "github.com" "" "" true
      = { pwEntries := [], pwEntriesToConfirm := [allowedEntry, deniedEntry, sampleEntry] } :=
  ⟨rfl, (classifyEntries_httpAuth sampleSettings
      [allowedEntry, notHttpAuthEntry, deniedEntry, sampleEntry] "github.com" "" "" rfl).trans
    (by decide)⟩

/-! ## Theorems: confirmation -/

/-- While a confirmation is pending, `confirmEntries` opens no dialog: it returns the empty
list and leaves the batch and the service state as they are. -/
theorem confirmEntries_dialogActive (dialog : List Entry → String → Bool → DialogOutcome)
    (state : ServiceState) (batch : List Entry) (siteUrl siteHost formUrl realm : String)
    (httpAuth : Bool) (hactive : state.m_dialogActive = true) :
    confirmEntries dialog state batch siteUrl siteHost formUrl realm httpAuth
      = { allowedEntries := [], batch := batch, state := state } := by
  simp [confirmEntries, hactive]

/-- Counterexample to C6 as stated: a confirmation is pending, the confirmation batch of the
request is not empty (it holds the undecided sample entry), and yet the result is not
empty: it holds the entry that was accepted without confirmation. -/
theorem findMatchingEntries_dialogActive_counterexample :
    (classifyEntries sampleSettings [allowedEntry, sampleEntry] "github.com" "github.com" ""
        false).pwEntriesToConfirm = [sampleEntry]
    ∧ (findMatchingEntries simpleApi sampleSettings (fun entry => entry.uuid) acceptFirstDialog
        { m_dialogActive := true, databaseOpened := true } [allowedEntry, sampleEntry]
        "https://github.com/login" "https://github.com/session" "" false).1
      = ["00000000000000000000000000000002"] := by
  decide

/-- C6, amended: if a confirmation is already pending when `findMatchingEntries` runs, no
dialog is opened and no entry is taken from the confirmation batch: the result is built
from the entries accepted without confirmation alone (ranked by `sortEntries`), it is
empty when there is none or when the database is not open, and the service state is left
as it was. -/
theorem findMatchingEntries_dialogActive {U J : Type} (api : QUrlApi U)
    (settings : BrowserSettings) (prepareEntry : Entry → J)
    (dialog : List Entry → String → Bool → DialogOutcome) (state : ServiceState)
    (found : List Entry) (siteUrl formUrl realm : String) (httpAuth : Bool)
    (hactive : state.m_dialogActive = true) :
    findMatchingEntries api settings prepareEntry dialog state found siteUrl formUrl realm
        httpAuth
      = (if (classifyEntries settings found (api.host (api.ofString siteUrl))
              (api.host (api.ofString formUrl)) realm httpAuth).pwEntries = []
            ∨ state.databaseOpened = false then []
          else
            (sortEntries api settings
              (classifyEntries settings found (api.host (api.ofString siteUrl))
                (api.host (api.ofString formUrl)) realm httpAuth).pwEntries
              siteUrl formUrl).map prepareEntry,
         state) := by
  unfold findMatchingEntries
  simp only [confirmEntries_dialogActive _ _ _ _ _ _ _ _ hactive]
  cases hl : (classifyEntries settings found (api.host (api.ofString siteUrl))
      (api.host (api.ofString formUrl)) realm httpAuth).pwEntries <;>
    cases ho : state.databaseOpened <;> simp

/-- Witness of the amended C6: with a confirmation pending and only an undecided entry
found, the result is empty and the state is unchanged. -/
theorem findMatchingEntries_dialogActive_witness :
    (({ m_dialogActive := true, databaseOpened := true } : ServiceState).m_dialogActive = true)
    ∧ findMatchingEntries simpleApi sampleSettings (fun entry => entry.uuid) acceptFirstDialog
        { m_dialogActive := true, databaseOpened := true } [sampleEntry]
        "https://github.com/login" "https://github.com/session" "" false
      = ([], { m_dialogActive := true, databaseOpened := true }) :=
  ⟨rfl, (findMatchingEntries_dialogActive simpleApi sampleSettings (fun entry => entry.uuid)
      acceptFirstDialog { m_dialogActive := true, databaseOpened := true } [sampleEntry]
      "https://github.com/login" "https://github.com/session" "" false rfl).trans (by decide)⟩

/-- C7: if the database is not open once the confirmation step has finished (the state that
`findMatchingEntries` leaves behind has `isDatabaseOpened()` false), the result is empty,
whatever entries were accepted and whatever the user selected in the dialog. -/
theorem findMatchingEntries_locked {U J : Type} (api : QUrlApi U)
    (settings : BrowserSettings) (prepareEntry : Entry → J)
    (dialog : List Entry → String → Bool → DialogOutcome) (state : ServiceState)
    (found : List Entry) (siteUrl formUrl realm : String) (httpAuth : Bool)
    (hlocked : (findMatchingEntries api settings prepareEntry dialog state found siteUrl formUrl
      realm httpAuth).2.databaseOpened = false) :
    (findMatchingEntries api settings prepareEntry dialog state found siteUrl formUrl realm
      httpAuth).1 = [] := by
  unfold findMatchingEntries at hlocked ⊢
  simp only at hlocked ⊢
  generalize classifyEntries settings found (api.host (api.ofString siteUrl))
    (api.host (api.ofString formUrl)) realm httpAuth = lists at hlocked ⊢
  generalize confirmEntries dialog state lists.pwEntriesToConfirm siteUrl
    (api.host (api.ofString siteUrl)) (api.host (api.ofString formUrl)) realm httpAuth
    = confirmation at hlocked ⊢
  by_cases h1 : (if (!confirmation.allowedEntries.isEmpty) = true then
      lists.pwEntries ++ confirmation.allowedEntries else lists.pwEntries).isEmpty = true
  · rw [if_pos h1]
  · rw [if_neg h1] at hlocked ⊢
    by_cases h2 : (!confirmation.state.databaseOpened) = true
    · rw [if_pos h2]
    · rw [if_neg h2] at hlocked
      simp only at hlocked
      simp [hlocked] at h2

/-- Witness of C7: the user selects the undecided entry and accepts, an allowed entry was
accepted before, but the database was locked while the dialog was open: the result is
empty. -/
theorem findMatchingEntries_locked_witness :
    (findMatchingEntries simpleApi sampleSettings (fun entry => entry.uuid) lockedDialog
        { m_dialogActive := false, databaseOpened := true } [allowedEntry, sampleEntry]
        "https://github.com/login" "https://github.com/session" "" false).2.databaseOpened = false
    ∧ (findMatchingEntries simpleApi sampleSettings (fun entry => entry.uuid) lockedDialog
        { m_dialogActive := false, databaseOpened := true } [allowedEntry, sampleEntry]
        "https://github.com/login" "https://github.com/session" "" false).1 = [] :=
  ⟨by decide, findMatchingEntries_locked simpleApi sampleSettings (fun entry => entry.uuid)
    lockedDialog { m_dialogActive := false, databaseOpened := true } [allowedEntry, sampleEntry]
    "https://github.com/login" "https://github.com/session" "" false (by decide)⟩

/-! ## Theorems: URL matching -/

theorem qIsEmpty_eq_false {s : String} (h : s ≠ "") : qIsEmpty s = false := by
  simp [qIsEmpty, h]

/-- The test `qStartsWith` holds exactly when the text is `start` followed by something. -/
theorem qStartsWith_iff (s start : String) :
    qStartsWith s start = true ↔ ∃ rest : String, s = start ++ rest := by
  unfold qStartsWith
  rw [List.isPrefixOf_iff_prefix]
  constructor
  · rintro ⟨t, ht⟩
    exact ⟨String.mk t, String.ext (by simp [ht])⟩
  · rintro ⟨rest, rfl⟩
    exact ⟨rest.data, by simp⟩

/-- The test `qEndsWith` holds exactly when the text is something followed by `ending`. -/
theorem qEndsWith_iff (s ending : String) :
    qEndsWith s ending = true ↔ ∃ front : String, s = front ++ ending := by
  unfold qEndsWith
  rw [List.isSuffixOf_iff_suffix]
  constructor
  · rintro ⟨t, ht⟩
    exact ⟨String.mk t, String.ext (by simp [ht])⟩
  · rintro ⟨front, rfl⟩
    exact ⟨front.data, by simp⟩

/-- The regular expression of `handleURL` has no match exactly when none of the
characters of the text is one of the seven illegal characters. -/
theorem hasIllegalCharacter_eq_false_iff (text : String) :
    hasIllegalCharacter text = false ↔ ∀ c ∈ text.data, c ∉ illegalCharacters := by
  simp [hasIllegalCharacter, List.any_eq_false]

/-- C8: for every non-empty stored URL and every site URL that does not start with
`file://`, `handleURL` returns true if and only if: the host of the URL built from the
stored URL is not empty; that URL has no positive port or its port equals the port of the
site URL; scheme matching is off, or the stored scheme is empty or equal to the site
scheme; no character of the raw stored URL is one of the seven illegal characters; the top-level
domains of site host and stored host are equal; and the site host ends with the stored
host.  The stored host is the host compared by `handleURL`: the parsed one, with `www.`
removed under `omitWwwSubdomain` when it starts with `www.`. -/
theorem handleURL_iff {U : Type} (api : QUrlApi U) (settings : BrowserSettings)
    (entryUrl siteUrl formUrl : String) (omitWwwSubdomain : Bool)
    (hentry : entryUrl ≠ "") (hfile : qStartsWith siteUrl "file://" = false) :
    handleURL api settings entryUrl siteUrl formUrl omitWwwSubdomain = true ↔
      (api.host (entryQUrl api settings entryUrl omitWwwSubdomain) ≠ ""
      ∧ (¬ 0 < api.port (entryQUrl api settings entryUrl omitWwwSubdomain)
        ∨ api.port (entryQUrl api settings entryUrl omitWwwSubdomain)
          = api.port (api.ofString siteUrl))
      ∧ (settings.matchUrlScheme = false
        ∨ api.scheme (entryQUrl api settings entryUrl omitWwwSubdomain) = ""
        ∨ api.scheme (entryQUrl api settings entryUrl omitWwwSubdomain)
          = api.scheme (api.ofString siteUrl))
      ∧ (∀ c ∈ entryUrl.data, c ∉ illegalCharacters)
      ∧ getTopLevelDomainFromUrl api (api.host (api.ofString siteUrl))
        = getTopLevelDomainFromUrl api
            (api.host (entryQUrl api settings entryUrl omitWwwSubdomain))
      ∧ qEndsWith (api.host (api.ofString siteUrl))
          (api.host (entryQUrl api settings entryUrl omitWwwSubdomain)) = true) := by
  rw [← hasIllegalCharacter_eq_false_iff]
  unfold handleURL
  rw [qIsEmpty_eq_false hentry, hfile]
  simp only [Bool.false_eq_true, if_false]
  generalize entryQUrl api settings entryUrl omitWwwSubdomain = stored
  generalize api.ofString siteUrl = site
  by_cases h1 : api.host stored = ""
  · simp [qIsEmpty, h1]
  · by_cases h2 : 0 < api.port stored <;> by_cases h3 : api.port stored = api.port site <;>
      cases h4 : settings.matchUrlScheme <;>
      by_cases h5 : api.scheme stored = "" <;>
      by_cases h6 : api.scheme stored = api.scheme site <;>
      cases h7 : hasIllegalCharacter entryUrl <;>
      by_cases h8 : getTopLevelDomainFromUrl api (api.host site)
        = getTopLevelDomainFromUrl api (api.host stored) <;>
      cases h9 : qEndsWith (api.host site) (api.host stored) <;>
      simp [qIsEmpty, h1, h2, h3, h4, h5, h6, h8]

/-- Witness of C8: the stored URL `https://github.com` matches the site
`https://www.github.com/login`. -/
theorem handleURL_iff_witness :
    ("https://github.com" ≠ "" ∧ qStartsWith "https://www.github.com/login" "file://" = false)
    ∧ handleURL simpleApi sampleSettings "https://github.com" "https://www.github.com/login"
        "https://www.github.com/session" false = true :=
  ⟨⟨by decide, by decide⟩,
    (handleURL_iff simpleApi sampleSettings "https://github.com" "https://www.github.com/login"
      "https://www.github.com/session" false (by decide) (by decide)).mpr (by decide)⟩

/-- Counterexample to C9 as stated: the stored URL contains a bar, and `handleURL` returns
true for the site URL `file://`, the stored URL being equal to the form URL. -/
theorem handleURL_illegalCharacter_counterexample :
    '|' ∈ "file:///home/user/a|b.html".data
    ∧ '|' ∈ illegalCharacters
    ∧ handleURL simpleApi sampleSettings "file:///home/user/a|b.html" "file://"
        "file:///home/user/a|b.html" false = true := by
  decide

/-- C9, amended: `handleURL` returns false for every stored URL whose text contains one of
the seven illegal characters, for every site URL that does not start with `file://`, every
form URL and every value of `omitWwwSubdomain`. -/
theorem handleURL_illegalCharacter {U : Type} (api : QUrlApi U) (settings : BrowserSettings)
    (entryUrl siteUrl formUrl : String) (omitWwwSubdomain : Bool)
    (hillegal : ∃ c ∈ entryUrl.data, c ∈ illegalCharacters)
    (hfile : qStartsWith siteUrl "file://" = false) :
    handleURL api settings entryUrl siteUrl formUrl omitWwwSubdomain = false := by
  have hmatch : hasIllegalCharacter entryUrl = true := by
    obtain ⟨c, hc, hi⟩ := hillegal
    simp only [hasIllegalCharacter, List.any_eq_true, decide_eq_true_eq]
    exact ⟨c, hc, hi⟩
  unfold handleURL
  rw [hfile, hmatch]
  simp

/-- Witness of the amended C9: the stored URL `github.com/{}<>` of the tests, with its
braces, is rejected for the site `https://github.com`. -/
theorem handleURL_illegalCharacter_witness :
    ((∃ c ∈ "github.com/\x7b\x7d<>".data, c ∈ illegalCharacters)
      ∧ qStartsWith "https://github.com" "file://" = false)
    ∧ handleURL simpleApi sampleSettings "github.com/\x7b\x7d<>" "https://github.com"
        "https://github.com/session" false = false :=
  ⟨⟨⟨'<', by decide, by decide⟩, by decide⟩,
    handleURL_illegalCharacter simpleApi sampleSettings "github.com/\x7b\x7d<>"
      "https://github.com" "https://github.com/session" false ⟨'<', by decide, by decide⟩
      (by decide)⟩

/-- C10: for every non-empty stored URL and every site URL that starts with `file://`,
`handleURL` returns true if and only if the stored URL equals the form URL; this holds for
every URL implementation, so no host, port, scheme or top-level-domain check takes part. -/
theorem handleURL_file {U : Type} (api : QUrlApi U) (settings : BrowserSettings)
    (entryUrl siteUrl formUrl : String) (omitWwwSubdomain : Bool)
    (hentry : entryUrl ≠ "") (hfile : qStartsWith siteUrl "file://" = true) :
    handleURL api settings entryUrl siteUrl formUrl omitWwwSubdomain = true
      ↔ entryUrl = formUrl := by
  unfold handleURL
  rw [qIsEmpty_eq_false hentry, hfile]
  simp

/-- Witness of C10: the local file of the tests, found through the form URL. -/
theorem handleURL_file_witness :
    ("file:///Users/testUser/tests/test.html" ≠ "" ∧ qStartsWith "file://" "file://" = true)
    ∧ handleURL simpleApi sampleSettings "file:///Users/testUser/tests/test.html" "file://"
        "file:///Users/testUser/tests/test.html" true = true :=
  ⟨⟨by decide, by decide⟩,
    (handleURL_file simpleApi sampleSettings "file:///Users/testUser/tests/test.html" "file://"
      "file:///Users/testUser/tests/test.html" true (by decide) (by decide)).mpr rfl⟩

/-- C11: for every stored URL whose URL has a port greater than 0 and every site URL that
does not start with `file://` and whose port differs from it (a site URL without explicit
port has the port -1), `handleURL` returns false.  The port of the stored URL is the port of
the URL that `handleURL` builds from it. -/
theorem handleURL_port_mismatch {U : Type} (api : QUrlApi U) (settings : BrowserSettings)
    (entryUrl siteUrl formUrl : String) (omitWwwSubdomain : Bool)
    (hfile : qStartsWith siteUrl "file://" = false)
    (hport : 0 < api.port (entryQUrl api settings entryUrl omitWwwSubdomain))
    (hdiff : api.port (entryQUrl api settings entryUrl omitWwwSubdomain)
      ≠ api.port (api.ofString siteUrl)) :
    handleURL api settings entryUrl siteUrl formUrl omitWwwSubdomain = false := by
  unfold handleURL
  rw [hfile]
  simp only [Bool.false_eq_true, if_false]
  split
  · rfl
  · split
    · rfl
    · simp [hport, hdiff]

/-- Witness of C11, the ports of the tests: the stored URL `http://127.0.0.1:80` is
rejected for the site `http://127.0.0.1:443`, and `http://127.0.0.1:443` is accepted. -/
theorem handleURL_port_mismatch_witness :
    (qStartsWith "http://127.0.0.1:443" "file://" = false
      ∧ 0 < simpleApi.port (entryQUrl simpleApi sampleSettings "http://127.0.0.1:80" false)
      ∧ simpleApi.port (entryQUrl simpleApi sampleSettings "http://127.0.0.1:80" false)
        ≠ simpleApi.port (simpleApi.ofString "http://127.0.0.1:443"))
    ∧ handleURL simpleApi sampleSettings "http://127.0.0.1:80" "http://127.0.0.1:443"
        "http://127.0.0.1" false = false
    ∧ handleURL simpleApi sampleSettings "http://127.0.0.1:443" "http://127.0.0.1:443"
        "http://127.0.0.1" false = true :=
  ⟨⟨by decide, by decide, by decide⟩,
    handleURL_port_mismatch simpleApi sampleSettings "http://127.0.0.1:80"
      "http://127.0.0.1:443" "http://127.0.0.1" false (by decide) (by decide) (by decide),
    by decide⟩

/-- C12, the code at the failing input: under `omitWwwSubdomain` the stored URL
`https://www.mywww.com` has the host `www.mywww.com`; `remove("www.")` takes out both
occurrences of `www.`, the compared host is `mycom` instead of `mywww.com`, and the site
`https://mywww.com` is not matched. -/
theorem handleURL_omitWww_inner_occurrence :
    simpleApi.host (simpleApi.ofString "https://www.mywww.com") = "www.mywww.com"
    ∧ qRemove "www.mywww.com" "www." = "mycom"
    ∧ simpleApi.host (entryQUrl simpleApi sampleSettings "https://www.mywww.com" true) = "mycom"
    ∧ handleURL simpleApi sampleSettings "https://www.mywww.com" "https://mywww.com"
        "https://mywww.com" true = false
    ∧ handleURL simpleApi sampleSettings "https://mywww.com" "https://mywww.com"
        "https://mywww.com" true = true := by
  decide

/-- Counterexample to C13 as stated: the query URL begins with `keepassxc://by-uuid/`, the
part after that start is not the UUID of the sample entry, and `shouldIncludeEntry`
returns true. -/
theorem shouldIncludeEntry_uuid_counterexample :
    qStartsWith "keepassxc://by-uuid/by-uuid/00000000000000000000000000000001"
        "keepassxc://by-uuid/" = true
    ∧ "keepassxc://by-uuid/by-uuid/00000000000000000000000000000001"
        = "keepassxc://by-uuid/" ++ "by-uuid/00000000000000000000000000000001"
    ∧ "by-uuid/00000000000000000000000000000001" ≠ sampleEntry.uuid
    ∧ shouldIncludeEntry simpleApi sampleSettings sampleEntry
        "keepassxc://by-uuid/by-uuid/00000000000000000000000000000001" "" false = true := by
  decide

/-- C13, amended: for every entry and every query URL that begins with
`keepassxc://by-uuid/`, `shouldIncludeEntry` returns true if and only if the URL ends with
`by-uuid/` followed by the hex-encoded UUID of the entry, whatever the URLs of the entry
are; this is so in particular when the part after `keepassxc://by-uuid/` is that UUID. -/
theorem shouldIncludeEntry_uuid {U : Type} (api : QUrlApi U) (settings : BrowserSettings)
    (entry : Entry) (url submitUrl : String) (omitWwwSubdomain : Bool)
    (hstart : qStartsWith url "keepassxc://by-uuid/" = true) :
    (shouldIncludeEntry api settings entry url submitUrl omitWwwSubdomain = true
      ↔ ∃ front : String, url = front ++ ("by-uuid/" ++ entry.uuid))
    ∧ (url = "keepassxc://by-uuid/" ++ entry.uuid →
      shouldIncludeEntry api settings entry url submitUrl omitWwwSubdomain = true) := by
  have hiff : shouldIncludeEntry api settings entry url submitUrl omitWwwSubdomain = true
      ↔ ∃ front : String, url = front ++ ("by-uuid/" ++ entry.uuid) := by
    unfold shouldIncludeEntry
    rw [hstart, if_pos rfl]
    exact qEndsWith_iff url _
  refine ⟨hiff, fun h => hiff.mpr ⟨"keepassxc://", ?_⟩⟩
  rw [h, ← String.append_assoc]
  rfl

/-- Witness of the amended C13: the sample entry is found by its UUID. -/
theorem shouldIncludeEntry_uuid_witness :
    qStartsWith "keepassxc://by-uuid/00000000000000000000000000000001"
        "keepassxc://by-uuid/" = true
    ∧ shouldIncludeEntry simpleApi sampleSettings sampleEntry
        "keepassxc://by-uuid/00000000000000000000000000000001" "" false = true :=
  ⟨by decide,
    (shouldIncludeEntry_uuid simpleApi sampleSettings sampleEntry
      "keepassxc://by-uuid/00000000000000000000000000000001" "" false (by decide)).2 rfl⟩

/-! ## Theorems: entry search -/

/-- Appending the entries of `found` that are not yet in the list, one after the other,
as lines 760-762 do. -/
theorem appendNew_of_mem {entries : List Entry} {entry : Entry} (h : entry ∈ entries) :
    appendNew entries entry = entries := by
  simp [appendNew, h]

theorem appendNew_of_not_mem {entries : List Entry} {entry : Entry} (h : entry ∉ entries) :
    appendNew entries entry = entries ++ [entry] := by
  simp [appendNew, h]

theorem foldl_append_new (found : List Entry) (entries : List Entry) (hnodup : entries.Nodup) :
    ∃ added : List Entry,
      found.foldl appendNew entries = entries ++ added
      ∧ added.Sublist found
      ∧ (entries ++ added).Nodup
      ∧ (∀ entry, entry ∈ added ↔ entry ∈ found ∧ entry ∉ entries)
      ∧ ((∀ entry ∈ found, entry ∉ entries) → found.Nodup → added = found) := by
  induction found generalizing entries with
  | nil => exact ⟨[], by simp, List.Sublist.refl _, by simpa using hnodup, by simp, by simp⟩
  | cons x xs ih =>
    by_cases hx : x ∈ entries
    · obtain ⟨added, h1, h2, h3, h4, _⟩ := ih entries hnodup
      refine ⟨added, ?_, h2.cons x, h3, ?_, ?_⟩
      · rw [List.foldl_cons, appendNew_of_mem hx, h1]
      · intro entry
        rw [h4]
        constructor
        · rintro ⟨hm, hn⟩
          exact ⟨List.mem_cons_of_mem _ hm, hn⟩
        · rintro ⟨hm, hn⟩
          rcases List.mem_cons.mp hm with rfl | hm
          · exact absurd hx hn
          · exact ⟨hm, hn⟩
      · intro hall
        exact absurd hx (hall x (List.mem_cons_self _ _))
    · have hnodup2 : (entries ++ [x]).Nodup := by
        rw [List.nodup_append]
        refine ⟨hnodup, List.nodup_singleton x, ?_⟩
        intro a ha hb
        rw [List.mem_singleton] at hb
        exact hx (hb ▸ ha)
      obtain ⟨added, h1, h2, h3, h4, h5⟩ := ih (entries ++ [x]) hnodup2
      refine ⟨x :: added, ?_, h2.cons₂ x, ?_, ?_, ?_⟩
      · rw [List.foldl_cons, appendNew_of_not_mem hx, h1]
        simp
      · simpa using h3
      · intro entry
        simp only [List.mem_cons, h4, List.mem_append, List.mem_singleton, not_or,
          List.not_mem_nil, or_false, not_false_eq_true, and_true]
        constructor
        · rintro (rfl | ⟨hm, hn, _⟩)
          · exact ⟨Or.inl rfl, hx⟩
          · exact ⟨Or.inr hm, hn⟩
        · rintro ⟨rfl | hm, hn⟩
          · exact Or.inl rfl
          · by_cases he : entry = x
            · exact Or.inl he
            · exact Or.inr ⟨hm, hn, he⟩
      · intro hall hnd
        have hxs : x ∉ xs := (List.nodup_cons.mp hnd).1
        rw [h5 ?_ (List.nodup_cons.mp hnd).2]
        intro entry hm
        simp only [List.mem_append, List.mem_singleton, not_or]
        exact ⟨hall entry (List.mem_cons_of_mem _ hm), fun he => hxs (he ▸ hm)⟩

/-- The entry loop adds the entries of the group that are kept and are not yet in the
list. -/
theorem foldl_searchEntryStep {U : Type} (api : QUrlApi U) (settings : BrowserSettings)
    (siteUrl formUrl : String) (omitWwwSubdomain : Bool) (groupEntries entries : List Entry) :
    groupEntries.foldl (searchEntryStep api settings siteUrl formUrl omitWwwSubdomain) entries
      = (groupEntries.filter (fun entry =>
          decide (entry.isRecycled = false)
            && !(customDataContains entry.customData OPTION_HIDE_ENTRY
              && customDataValue entry.customData OPTION_HIDE_ENTRY == TRUE_STR)
            && shouldIncludeEntry api settings entry siteUrl formUrl omitWwwSubdomain)).foldl
          appendNew entries := by
  induction groupEntries generalizing entries with
  | nil => rfl
  | cons x xs ih =>
    rw [List.foldl_cons, ih, List.filter_cons]
    unfold searchEntryStep
    cases h1 : x.isRecycled <;>
      cases h2 : (customDataContains x.customData OPTION_HIDE_ENTRY
        && customDataValue x.customData OPTION_HIDE_ENTRY == TRUE_STR) <;>
      cases h3 : shouldIncludeEntry api settings x siteUrl formUrl omitWwwSubdomain <;>
      simp [h1, h2, h3, appendNew]

/-- The group loop adds the matching entries of the group that are not yet in the list. -/
theorem searchGroupStep_eq {U : Type} (api : QUrlApi U) (settings : BrowserSettings)
    (siteUrl formUrl : String) (entries : List Entry) (node : GroupNode) :
    searchGroupStep api settings siteUrl formUrl entries node
      = (matchingEntries api settings siteUrl formUrl node).foldl appendNew entries := by
  unfold searchGroupStep matchingEntries
  by_cases h : node.group.isRecycled = true ∨ node.resolve OPTION_HIDE_ENTRY = TriState.Enable
  · rw [if_pos h, if_pos (by simpa using h)]
    rfl
  · rw [if_neg h, if_neg (by simpa using h)]
    exact foldl_searchEntryStep api settings siteUrl formUrl _ _ _

/-- The search adds the matching entries of the database, in traversal order, that are
not yet in the list. -/
theorem foldl_searchGroupStep {U : Type} (api : QUrlApi U) (settings : BrowserSettings)
    (siteUrl formUrl : String) (groups : List GroupNode) (entries : List Entry) :
    groups.foldl (searchGroupStep api settings siteUrl formUrl) entries
      = (groups.foldr
          (fun node found => matchingEntries api settings siteUrl formUrl node ++ found)
          []).foldl appendNew entries := by
  induction groups generalizing entries with
  | nil => rfl
  | cons node rest ih =>
    rw [List.foldl_cons, ih, searchGroupStep_eq, List.foldr_cons, List.foldl_append]

/-- C14: `searchEntries(db, siteUrl, formUrl)` returns the matching entries of the database
(not recycled, not flagged hidden, not in a recycled group or a group resolved to hidden,
`shouldIncludeEntry` true under the resolved omit-www setting of the group): the result
has no duplicates, it has exactly the matching entries as members, they come in
group-traversal and entry order, and when the matching entries are pairwise distinct, as
the entries of a database are, the result is their list. -/
theorem searchEntries_matching {U : Type} (api : QUrlApi U) (settings : BrowserSettings)
    (db : Database) (siteUrl formUrl : String) :
    (searchEntries api settings db siteUrl formUrl).Nodup
    ∧ (∀ entry, entry ∈ searchEntries api settings db siteUrl formUrl
        ↔ entry ∈ matchingEntriesOfDatabase api settings db siteUrl formUrl)
    ∧ (searchEntries api settings db siteUrl formUrl).Sublist
        (matchingEntriesOfDatabase api settings db siteUrl formUrl)
    ∧ ((matchingEntriesOfDatabase api settings db siteUrl formUrl).Nodup →
        searchEntries api settings db siteUrl formUrl
          = matchingEntriesOfDatabase api settings db siteUrl formUrl) := by
  unfold searchEntries matchingEntriesOfDatabase
  cases db.groupsRecursive with
  | none => simp
  | some groups =>
    simp only
    rw [foldl_searchGroupStep]
    obtain ⟨added, h1, h2, h3, h4, h5⟩ := foldl_append_new
      (groups.foldr
        (fun node found => matchingEntries api settings siteUrl formUrl node ++ found) [])
      [] List.nodup_nil
    rw [h1]
    simp only [List.nil_append] at h3 ⊢
    refine ⟨h3, fun entry => ?_, h2, fun hnd => h5 (by simp) hnd⟩
    rw [h4]
    simp

/-- Witness of C14 on the sample database: for the site `https://github.com` the search
returns the three matching entries of the root group in their order; the entry for
`hub.com`, the hidden entry and the entry in the recycle bin are left out. -/
theorem searchEntries_matching_witness :
    (matchingEntriesOfDatabase simpleApi sampleSettings sampleDatabase "https://github.com"
      "https://github.com/session").Nodup
    ∧ searchEntries simpleApi sampleSettings sampleDatabase "https://github.com"
        "https://github.com/session" = [loginEntry, sampleEntry, allowedEntry] :=
  ⟨by decide,
    ((searchEntries_matching simpleApi sampleSettings sampleDatabase "https://github.com"
      "https://github.com/session").2.2.2 (by decide)).trans (by decide)⟩

/-! ## Theorems: domain analysis -/

theorem containsChars_append (sub front back : List Char) :
    containsChars sub (front ++ sub ++ back) = true := by
  induction front with
  | nil =>
    cases hs : sub ++ back with
    | nil =>
      have h1 : sub = [] := (List.append_eq_nil.mp hs).1
      have h2 : back = [] := (List.append_eq_nil.mp hs).2
      simp [containsChars, h1, h2]
    | cons c cs =>
      simp only [List.nil_append, hs, containsChars, Bool.or_eq_true]
      left
      rw [← hs, List.isPrefixOf_iff_prefix]
      exact List.prefix_append _ _
  | cons c cs ih =>
    simp only [List.cons_append, containsChars, Bool.or_eq_true]
    right
    simpa using ih

theorem qContains_append (front sub : String) : qContains (front ++ sub) sub = true := by
  unfold qContains
  have := containsChars_append sub.data front.data []
  simpa using this

theorem qChop_append (front ending : String) : qChop (front ++ ending) ending.length = front := by
  unfold qChop
  apply String.ext
  have hlen : ending.length = ending.data.length := rfl
  rw [String.data_append, List.length_append, hlen, Nat.add_sub_cancel]
  exact List.take_left _ _

theorem splitChars_ne_nil (sep : Char) (text : List Char) : splitChars sep text ≠ [] := by
  induction text with
  | nil => simp [splitChars]
  | cons c cs ih =>
    unfold splitChars
    split
    · simp
    · split <;> simp

theorem splitChars_of_not_mem (sep : Char) (text : List Char) (h : sep ∉ text) :
    splitChars sep text = [text] := by
  induction text with
  | nil => rfl
  | cons c cs ih =>
    have hc : c ≠ sep := fun e => h (e ▸ List.mem_cons_self _ _)
    have hcs : sep ∉ cs := fun m => h (List.mem_cons_of_mem _ m)
    simp [splitChars, hc, ih hcs]

theorem splitChars_append_sep (sep : Char) (front back : List Char) :
    splitChars sep (front ++ sep :: back) = splitChars sep front ++ splitChars sep back := by
  induction front with
  | nil => simp [splitChars]
  | cons c cs ih =>
    by_cases hc : c = sep
    · simp [splitChars, hc, ih]
    · have hstep : ∀ text, splitChars sep (c :: text)
          = match splitChars sep text with
            | [] => [[c]]
            | part :: parts => (c :: part) :: parts := by
        intro text
        simp [splitChars, hc]
      rw [List.cons_append, hstep, hstep, ih]
      cases hs : splitChars sep cs with
      | nil => exact absurd hs (splitChars_ne_nil sep cs)
      | cons part parts => simp

theorem qSplitLast_append (front label : String) (hlabel : '.' ∉ label.data)
    (hfront : front = "" ∨ ∃ start : String, front = start ++ ".") :
    qSplitLast (front ++ label) '.' = label := by
  unfold qSplitLast
  apply String.ext
  rcases hfront with rfl | ⟨start, rfl⟩
  · simp [splitChars_of_not_mem _ _ hlabel]
  · have : (start ++ "." ++ label).data = start.data ++ '.' :: label.data := by
      simp [String.data_append]
    rw [this, splitChars_append_sep, splitChars_of_not_mem _ _ hlabel]
    rw [List.getLastD_eq_getLast?, List.getLast?_append]
    simp
theorem splitChars_not_mem (sep : Char) (text : List Char) :
    ∀ part ∈ splitChars sep text, sep ∉ part := by
  induction text with
  | nil => simp [splitChars]
  | cons c cs ih =>
    by_cases hc : c = sep
    · simp only [splitChars, hc, if_true, List.mem_cons]
      rintro part (rfl | hm)
      · simp
      · exact ih part hm
    · have hstep : splitChars sep (c :: cs)
          = match splitChars sep cs with
            | [] => [[c]]
            | part :: parts => (c :: part) :: parts := by
        simp [splitChars, hc]
      rw [hstep]
      cases hs : splitChars sep cs with
      | nil => exact absurd hs (splitChars_ne_nil sep cs)
      | cons first parts =>
        rw [hs] at ih
        simp only [List.mem_cons]
        rintro part (rfl | hm)
        · intro hmem
          rcases List.mem_cons.mp hmem with h | h
          · exact hc h.symm
          · exact ih first (List.mem_cons_self _ _) h
        · exact ih part (List.mem_cons_of_mem _ hm)

/-- The last part of a split has no separator in it. -/
theorem qSplitLast_not_mem (text : String) : '.' ∉ (qSplitLast text '.').data := by
  unfold qSplitLast
  have hne := splitChars_ne_nil '.' text.data
  rw [List.getLastD_eq_getLast?]
  cases hl : (splitChars '.' text.data).getLast? with
  | none => simp
  | some part => exact splitChars_not_mem '.' text.data part (List.mem_of_getLast?_eq_some hl)

/-- C16: for every URL whose host is an IP literal (`isIpAddress` holds of the host that
`QUrl::fromUserInput` reads), `getTopLevelDomainFromUrl` returns that host, which carries
neither scheme nor port. -/
theorem getTopLevelDomainFromUrl_ip {U : Type} (api : QUrlApi U) (url : String)
    (hip : isIpAddress api (api.host (api.fromUserInput url)) = true) :
    getTopLevelDomainFromUrl api url = api.host (api.fromUserInput url) := by
  unfold getTopLevelDomainFromUrl
  simp [hip]

/-- Witness of C16, the URL of the tests: `https://192.168.0.1:8000` gives `192.168.0.1`. -/
theorem getTopLevelDomainFromUrl_ip_witness :
    isIpAddress simpleApi (simpleApi.host (simpleApi.fromUserInput "https://192.168.0.1:8000"))
      = true
    ∧ getTopLevelDomainFromUrl simpleApi "https://192.168.0.1:8000" = "192.168.0.1" :=
  ⟨by decide,
    (getTopLevelDomainFromUrl_ip simpleApi "https://192.168.0.1:8000" (by decide)).trans
      (by decide)⟩

/-- C17: for a host that is not an IP literal.  When the host reads
`front ++ label ++ "." ++ suffix`, where `"." ++ suffix` is the top-level domain that Qt
detects, `label` has no dot, and `front` is empty or ends with a dot (the host is
`L1.L2...Ln.S` with `Ln = label` and `S = suffix`), `getTopLevelDomainFromUrl` returns
`label ++ "." ++ suffix`.  When the host is empty or does not contain the detected
top-level domain, it returns the empty string. -/
theorem getTopLevelDomainFromUrl_label {U : Type} (api : QUrlApi U) (url : String)
    (hip : isIpAddress api (api.host (api.fromUserInput url)) = false) :
    (∀ front label suffix : String,
      api.topLevelDomain (api.fromUserInput url) = "." ++ suffix →
      api.host (api.fromUserInput url) = front ++ label ++ ("." ++ suffix) →
      '.' ∉ label.data →
      (front = "" ∨ ∃ start : String, front = start ++ ".") →
      getTopLevelDomainFromUrl api url = label ++ ("." ++ suffix))
    ∧ ((api.host (api.fromUserInput url) = ""
        ∨ qContains (api.host (api.fromUserInput url))
            (api.topLevelDomain (api.fromUserInput url)) = false) →
      getTopLevelDomainFromUrl api url = "") := by
  constructor
  · intro front label suffix htld hhost hlabel hfront
    unfold getTopLevelDomainFromUrl
    simp only [hip, Bool.false_eq_true, if_false, htld]
    rw [hhost, qContains_append, qChop_append, qSplitLast_append front label hlabel hfront]
    have hne : qIsEmpty (front ++ label ++ ("." ++ suffix)) = false := by
      unfold qIsEmpty
      rw [decide_eq_false_iff_not]
      intro h
      have hlen := congrArg String.length h
      simp only [String.length_append] at hlen
      have hdot : ".".length = 1 := rfl
      have hzero : "".length = 0 := rfl
      omega
    simp [hne]
  · intro h
    unfold getTopLevelDomainFromUrl
    simp only [hip, Bool.false_eq_true, if_false]
    rcases h with h | h
    · simp [h, qIsEmpty]
    · simp [h]

/-- Witness of C17, the hosts of the tests: `another.example.co.uk` gives `example.co.uk`,
`so.many.subdomains.co.jp` gives `subdomains.co.jp`, and the bare suffix `co.uk`, which
does not contain `.co.uk`, gives the empty string. -/
theorem getTopLevelDomainFromUrl_label_witness :
    isIpAddress simpleApi (simpleApi.host (simpleApi.fromUserInput "another.example.co.uk"))
      = false
    ∧ getTopLevelDomainFromUrl simpleApi "another.example.co.uk" = "example" ++ ("." ++ "co.uk")
    ∧ getTopLevelDomainFromUrl simpleApi "http://so.many.subdomains.co.jp" = "subdomains.co.jp"
    ∧ getTopLevelDomainFromUrl simpleApi "co.uk" = "" :=
  ⟨by decide,
    (getTopLevelDomainFromUrl_label simpleApi "another.example.co.uk" (by decide)).1
      "another." "example" "co.uk" (by decide) (by decide) (by decide)
      (Or.inr ⟨"another", by decide⟩),
    by decide,
    (getTopLevelDomainFromUrl_label simpleApi "co.uk" (by decide)).2 (Or.inr (by decide))⟩

/-- The three ways in which `getTopLevelDomainFromUrl` returns. -/
theorem getTopLevelDomainFromUrl_cases {U : Type} (api : QUrlApi U) (url : String) :
    (isIpAddress api (api.host (api.fromUserInput url)) = true
      ∧ getTopLevelDomainFromUrl api url = api.host (api.fromUserInput url))
    ∨ (isIpAddress api (api.host (api.fromUserInput url)) = false
      ∧ getTopLevelDomainFromUrl api url = "")
    ∨ (isIpAddress api (api.host (api.fromUserInput url)) = false
      ∧ getTopLevelDomainFromUrl api url
        = qSplitLast (qChop (api.host (api.fromUserInput url))
            (api.topLevelDomain (api.fromUserInput url)).length) '.'
          ++ api.topLevelDomain (api.fromUserInput url)) := by
  cases hip : isIpAddress api (api.host (api.fromUserInput url))
  · right
    cases hnone : (qIsEmpty (api.host (api.fromUserInput url))
        || !qContains (api.host (api.fromUserInput url))
          (api.topLevelDomain (api.fromUserInput url)))
    · right
      refine ⟨rfl, ?_⟩
      unfold getTopLevelDomainFromUrl
      simp only [hip, hnone, Bool.false_eq_true, if_false]
    · left
      refine ⟨rfl, ?_⟩
      unfold getTopLevelDomainFromUrl
      simp only [hip, hnone, Bool.false_eq_true, if_false, if_true]
  · left
    refine ⟨rfl, ?_⟩
    unfold getTopLevelDomainFromUrl
    simp only [hip, if_true]

/-- The label that `getTopLevelDomainFromUrl` puts before the top-level domain is what a
second pass over label and top-level domain finds again. -/
theorem qSplitLast_qChop_again (host ending : String) :
    qSplitLast (qChop (qSplitLast (qChop host ending.length) '.' ++ ending) ending.length) '.'
      = qSplitLast (qChop host ending.length) '.' := by
  rw [qChop_append]
  have h := qSplitLast_append "" (qSplitLast (qChop host ending.length) '.')
    (qSplitLast_not_mem _) (Or.inl rfl)
  rwa [String.empty_append] at h

/-- Idempotence where Qt reads the result back: if `QUrl::fromUserInput` reads the result
of `getTopLevelDomainFromUrl` as a URL with that result as host and with the top-level
domain of the first URL, a second application returns the same result. -/
theorem getTopLevelDomainFromUrl_idempotent_of_reparse {U : Type} (api : QUrlApi U)
    (url : String)
    (hhost : api.host (api.fromUserInput (getTopLevelDomainFromUrl api url))
      = getTopLevelDomainFromUrl api url)
    (htld : api.topLevelDomain (api.fromUserInput (getTopLevelDomainFromUrl api url))
      = api.topLevelDomain (api.fromUserInput url)) :
    getTopLevelDomainFromUrl api (getTopLevelDomainFromUrl api url)
      = getTopLevelDomainFromUrl api url := by
  have hfirst := getTopLevelDomainFromUrl_cases api url
  generalize getTopLevelDomainFromUrl api url = result at hhost htld hfirst ⊢
  have hsecond : getTopLevelDomainFromUrl api result
      = if isIpAddress api result then result
        else if qIsEmpty result || !qContains result (api.topLevelDomain (api.fromUserInput url))
        then ""
        else qSplitLast (qChop result (api.topLevelDomain (api.fromUserInput url)).length) '.'
          ++ api.topLevelDomain (api.fromUserInput url) := by
    unfold getTopLevelDomainFromUrl
    simp only [hhost, htld]
  rw [hsecond]
  by_cases hip2 : isIpAddress api result = true
  · rw [if_pos hip2]
  · rw [if_neg hip2]
    rcases hfirst with ⟨hip1, hres⟩ | ⟨_, hres⟩ | ⟨_, hres⟩
    · rw [← hres] at hip1
      exact absurd hip1 hip2
    · simp [hres, qIsEmpty]
    · by_cases hempty : result = ""
      · simp [hempty, qIsEmpty]
      · have hcontains :
            qContains result (api.topLevelDomain (api.fromUserInput url)) = true := by
          rw [hres]
          exact qContains_append _ _
        have hagain : qSplitLast (qChop result
            (api.topLevelDomain (api.fromUserInput url)).length) '.'
              ++ api.topLevelDomain (api.fromUserInput url) = result := by
          conv_lhs => rw [hres, qSplitLast_qChop_again]
          exact hres.symm
        simp [qIsEmpty, hempty, hcontains, hagain]

/-- C15, the code at a failing input.  For every URL implementation that, like Qt, reads
the user input `example.com.` as a URL with the host `example.com.` and the top-level
domain `.com`, refuses the host `.com` (the URL read from it has no host), and takes
neither of these texts nor the empty text for an IP literal, the first application of
`getTopLevelDomainFromUrl` to `example.com.` returns `.com` and the second returns the
empty string. -/
theorem getTopLevelDomainFromUrl_trailing_dot {U : Type} (api : QUrlApi U)
    (hhost : api.host (api.fromUserInput "example.com.") = "example.com.")
    (htld : api.topLevelDomain (api.fromUserInput "example.com.") = ".com")
    (hip : isIpAddress api "example.com." = false)
    (hrefused : api.host (api.fromUserInput ".com") = "")
    (hempty : isIpAddress api "" = false) :
    getTopLevelDomainFromUrl api "example.com." = ".com"
    ∧ getTopLevelDomainFromUrl api (getTopLevelDomainFromUrl api "example.com.") = ""
    ∧ getTopLevelDomainFromUrl api (getTopLevelDomainFromUrl api "example.com.")
      ≠ getTopLevelDomainFromUrl api "example.com." := by
  have hfirst : getTopLevelDomainFromUrl api "example.com." = ".com" := by
    unfold getTopLevelDomainFromUrl
    simp only [hhost, htld, hip, Bool.false_eq_true, if_false]
    decide
  have hsecond : getTopLevelDomainFromUrl api ".com" = "" := by
    unfold getTopLevelDomainFromUrl
    simp only [hrefused, hempty, Bool.false_eq_true, if_false]
    have hq : qIsEmpty "" = true := by decide
    simp only [hq, Bool.true_or, if_true]
  rw [hfirst, hsecond]
  exact ⟨rfl, rfl, by decide⟩

/-- Witness of C15 at the failing input on the plain URL implementation. -/
theorem getTopLevelDomainFromUrl_trailing_dot_witness :
    (simpleApi.host (simpleApi.fromUserInput "example.com.") = "example.com."
      ∧ simpleApi.topLevelDomain (simpleApi.fromUserInput "example.com.") = ".com"
      ∧ isIpAddress simpleApi "example.com." = false
      ∧ simpleApi.host (simpleApi.fromUserInput ".com") = ""
      ∧ isIpAddress simpleApi "" = false)
    ∧ getTopLevelDomainFromUrl simpleApi "example.com." = ".com"
    ∧ getTopLevelDomainFromUrl simpleApi (getTopLevelDomainFromUrl simpleApi "example.com.") = ""
    ∧ getTopLevelDomainFromUrl simpleApi (getTopLevelDomainFromUrl simpleApi "example.com.")
      ≠ getTopLevelDomainFromUrl simpleApi "example.com." :=
  ⟨⟨by decide, by decide, by decide, by decide, by decide⟩,
    getTopLevelDomainFromUrl_trailing_dot simpleApi (by decide) (by decide) (by decide)
      (by decide) (by decide)⟩

/-! ## Theorems: ranking -/

/-- The lambda `getPriority` as the reject test followed by the tiers, on the URL that it
scores. -/
theorem getPriority_eq {U : Type} (api : QUrlApi U) (adjustedSiteUrl adjustedFormUrl : U)
    (givenUrl : String) :
    getPriority api adjustedSiteUrl adjustedFormUrl givenUrl
      = if priorityRejected api adjustedSiteUrl (priorityUrl api givenUrl) then 0
        else if api.matchesNone (priorityUrl api givenUrl) adjustedSiteUrl
            || api.matchesNone (priorityUrl api givenUrl) adjustedFormUrl then 100
        else if api.matchesRemoveQuery (priorityUrl api givenUrl) adjustedSiteUrl
            || api.matchesRemoveQuery (priorityUrl api givenUrl) adjustedFormUrl then 90
        else if api.isParentOf (priorityUrl api givenUrl) adjustedSiteUrl
            || api.isParentOf (priorityUrl api givenUrl) adjustedFormUrl then 85
        else if api.host (priorityUrl api givenUrl) == api.host adjustedSiteUrl then 80
        else if api.host (priorityUrl api givenUrl) == api.host adjustedFormUrl then 70
        else if qEndsWith (api.host adjustedSiteUrl) (api.host (priorityUrl api givenUrl)) then 60
        else if qEndsWith (api.host adjustedFormUrl) (api.host (priorityUrl api givenUrl)) then 50
        else 0 := by
  rfl

/-- Every value of `getPriority` is one of the eight scores. -/
theorem getPriority_mem {U : Type} (api : QUrlApi U) (adjustedSiteUrl adjustedFormUrl : U)
    (givenUrl : String) :
    getPriority api adjustedSiteUrl adjustedFormUrl givenUrl ∈ [0, 50, 60, 70, 80, 85, 90, 100] := by
  rw [getPriority_eq]
  repeat' split
  all_goals simp

/-- The maximum that `sortPriority` takes is an element of a non-empty list. -/
theorem maxElement_mem (priorities : List Int) (hne : priorities ≠ []) :
    maxElement priorities ∈ priorities := by
  cases priorities with
  | nil => exact absurd rfl hne
  | cons p ps =>
    have hfold : ∀ (items : List Int) (start : Int),
        items.foldl max start ∈ start :: items := by
      intro items
      induction items with
      | nil => simp
      | cons q qs ih =>
        intro start
        rw [List.foldl_cons]
        rcases max_choice start q with h | h
        · rw [h]
          rcases List.mem_cons.mp (ih start) with h2 | h2
          · rw [h2]
            exact List.mem_cons_self _ _
          · exact List.mem_cons_of_mem _ (List.mem_cons_of_mem _ h2)
        · rw [h]
          exact List.mem_cons_of_mem _ (ih q)
    exact hfold ps p

/-- The score of a single stored URL. -/
theorem sortPriority_singleton {U : Type} (api : QUrlApi U) (url siteUrl formUrl : String) :
    sortPriority api [url] siteUrl formUrl
      = getPriority api (api.adjusted (api.ofString siteUrl))
          (api.adjusted (api.ofString formUrl)) url := by
  rfl

/-- C18: for every non-empty list of stored URLs and every site URL and form URL,
`sortPriority` returns one of 0, 50, 60, 70, 80, 85, 90, 100. -/
theorem sortPriority_mem {U : Type} (api : QUrlApi U) (urls : List String)
    (siteUrl formUrl : String) (hne : urls ≠ []) :
    sortPriority api urls siteUrl formUrl ∈ [0, 50, 60, 70, 80, 85, 90, 100] := by
  unfold sortPriority
  have hmem := maxElement_mem
    (urls.map (getPriority api (api.adjusted (api.ofString siteUrl))
      (api.adjusted (api.ofString formUrl)))) (by simpa using hne)
  obtain ⟨url, _, hurl⟩ := List.mem_map.mp hmem
  rw [← hurl]
  exact getPriority_mem api _ _ url

/-- Witness of C18, rows of the tests: a stored URL equal to the site URL scores 100, and
with a second stored URL of another scheme the score is still 100. -/
theorem sortPriority_mem_witness :
    ["http://github.com", "https://github.com/login"] ≠ []
    ∧ sortPriority simpleApi ["http://github.com", "https://github.com/login"]
        "https://github.com/login" "https://github.com/session"
      ∈ [0, 50, 60, 70, 80, 85, 90, 100]
    ∧ sortPriority simpleApi ["http://github.com", "https://github.com/login"]
        "https://github.com/login" "https://github.com/session" = 100 :=
  ⟨by decide,
    sortPriority_mem simpleApi ["http://github.com", "https://github.com/login"]
      "https://github.com/login" "https://github.com/session" (by decide),
    by decide⟩

/-- Counterexample to C19 as stated.  The site URL is `https://github.com/login` and the
form URL `http://other.com/session`.  The stored URL `http://other.com/session` is an exact
match of the form URL and scores 0, its scheme not being that of the site URL, while the
path-ancestor `https://github.com/` of the site URL scores 85; and the path-ancestor
`http://other.com/` of the form URL scores 0 while `https://github.com/keepassxreboot`,
which has only the host of the site URL, scores 80. -/
theorem sortPriority_monotone_counterexample :
    simpleApi.matchesNone (priorityUrl simpleApi "http://other.com/session")
        (simpleApi.adjusted (simpleApi.ofString "http://other.com/session")) = true
    ∧ simpleApi.isParentOf (priorityUrl simpleApi "https://github.com/")
        (simpleApi.adjusted (simpleApi.ofString "https://github.com/login")) = true
    ∧ sortPriority simpleApi ["http://other.com/session"] "https://github.com/login"
        "http://other.com/session" = 0
    ∧ sortPriority simpleApi ["https://github.com/"] "https://github.com/login"
        "http://other.com/session" = 85
    ∧ simpleApi.isParentOf (priorityUrl simpleApi "http://other.com/")
        (simpleApi.adjusted (simpleApi.ofString "http://other.com/session")) = true
    ∧ sortPriority simpleApi ["http://other.com/"] "https://github.com/login"
        "http://other.com/session" = 0
    ∧ sortPriority simpleApi ["https://github.com/keepassxreboot"] "https://github.com/login"
        "http://other.com/session" = 80 := by
  decide

/-- C19, amended: scoring monotonicity for stored URLs that pass the reject test.  For
every query, if `a` and `b` pass the reject test of `getPriority` (valid, host with a dot
or `localhost`, scheme of the site URL), `a` is an exact match of the site or form URL,
`b` is a path-ancestor of the site or form URL, and `c` has the host of the site URL but
is neither an exact match, nor a match without the query, nor a path-ancestor of either
URL, then `a` scores 100, `b` at least 85 and `c` at most 80 (80 when it passes the
reject test), so score(a) >= score(b) >= score(c). -/
theorem sortPriority_monotone {U : Type} (api : QUrlApi U) (siteUrl formUrl a b c : String)
    (hpassA : priorityRejected api (api.adjusted (api.ofString siteUrl)) (priorityUrl api a)
      = false)
    (hexactA : api.matchesNone (priorityUrl api a) (api.adjusted (api.ofString siteUrl)) = true
      ∨ api.matchesNone (priorityUrl api a) (api.adjusted (api.ofString formUrl)) = true)
    (hpassB : priorityRejected api (api.adjusted (api.ofString siteUrl)) (priorityUrl api b)
      = false)
    (hparentB : api.isParentOf (priorityUrl api b) (api.adjusted (api.ofString siteUrl)) = true
      ∨ api.isParentOf (priorityUrl api b) (api.adjusted (api.ofString formUrl)) = true)
    (hhostC : api.host (priorityUrl api c) = api.host (api.adjusted (api.ofString siteUrl)))
    (honlyC : api.matchesNone (priorityUrl api c) (api.adjusted (api.ofString siteUrl)) = false
      ∧ api.matchesNone (priorityUrl api c) (api.adjusted (api.ofString formUrl)) = false
      ∧ api.matchesRemoveQuery (priorityUrl api c) (api.adjusted (api.ofString siteUrl)) = false
      ∧ api.matchesRemoveQuery (priorityUrl api c) (api.adjusted (api.ofString formUrl)) = false
      ∧ api.isParentOf (priorityUrl api c) (api.adjusted (api.ofString siteUrl)) = false
      ∧ api.isParentOf (priorityUrl api c) (api.adjusted (api.ofString formUrl)) = false) :
    sortPriority api [a] siteUrl formUrl = 100
    ∧ 85 ≤ sortPriority api [b] siteUrl formUrl
    ∧ sortPriority api [c] siteUrl formUrl ≤ 80
    ∧ (priorityRejected api (api.adjusted (api.ofString siteUrl)) (priorityUrl api c) = false →
      sortPriority api [c] siteUrl formUrl = 80)
    ∧ sortPriority api [a] siteUrl formUrl ≥ sortPriority api [b] siteUrl formUrl
    ∧ sortPriority api [b] siteUrl formUrl ≥ sortPriority api [c] siteUrl formUrl := by
  obtain ⟨hc1, hc2, hc3, hc4, hc5, hc6⟩ := honlyC
  have hA : sortPriority api [a] siteUrl formUrl = 100 := by
    rw [sortPriority_singleton, getPriority_eq, hpassA]
    rcases hexactA with h | h <;> simp [h]
  have hB : 85 ≤ sortPriority api [b] siteUrl formUrl := by
    rw [sortPriority_singleton, getPriority_eq, hpassB]
    simp only [Bool.false_eq_true, if_false]
    split
    · decide
    · split
      · decide
      · rcases hparentB with h | h <;> simp [h]
  have hB100 : sortPriority api [b] siteUrl formUrl ≤ 100 := by
    have hmem := sortPriority_mem api [b] siteUrl formUrl (by simp)
    simp only [List.mem_cons, List.mem_singleton, List.not_mem_nil, or_false] at hmem
    omega
  have hC80 : priorityRejected api (api.adjusted (api.ofString siteUrl)) (priorityUrl api c)
      = false → sortPriority api [c] siteUrl formUrl = 80 := by
    intro hpassC
    rw [sortPriority_singleton, getPriority_eq, hpassC]
    simp [hc1, hc2, hc3, hc4, hc5, hc6, hhostC]
  have hC : sortPriority api [c] siteUrl formUrl ≤ 80 := by
    cases hrej : priorityRejected api (api.adjusted (api.ofString siteUrl)) (priorityUrl api c)
    · rw [hC80 hrej]
    · rw [sortPriority_singleton, getPriority_eq, hrej]
      simp
  refine ⟨hA, hB, hC, hC80, ?_, ?_⟩ <;> omega

/-- Witness of the amended C19, rows of the tests: for the site `https://github.com/login`
and the form `https://github.com/session` the stored URLs `https://github.com/login`,
`https://github.com/` and `https://github.com/keepassxreboot` score 100, 85 and 80. -/
theorem sortPriority_monotone_witness :
    sortPriority simpleApi ["https://github.com/login"] "https://github.com/login"
        "https://github.com/session" = 100
    ∧ sortPriority simpleApi ["https://github.com/"] "https://github.com/login"
        "https://github.com/session" = 85
    ∧ sortPriority simpleApi ["https://github.com/keepassxreboot"] "https://github.com/login"
        "https://github.com/session" = 80
    ∧ sortPriority simpleApi ["https://github.com/login"] "https://github.com/login"
        "https://github.com/session"
      ≥ sortPriority simpleApi ["https://github.com/"] "https://github.com/login"
        "https://github.com/session"
    ∧ sortPriority simpleApi ["https://github.com/"] "https://github.com/login"
        "https://github.com/session"
      ≥ sortPriority simpleApi ["https://github.com/keepassxreboot"] "https://github.com/login"
        "https://github.com/session" :=
  have h := sortPriority_monotone simpleApi "https://github.com/login"
    "https://github.com/session" "https://github.com/login" "https://github.com/"
    "https://github.com/keepassxreboot" (by decide) (by decide) (by decide) (by decide)
    (by decide) (by decide)
  ⟨h.1, by decide, h.2.2.2.1 (by decide), h.2.2.2.2.1, h.2.2.2.2.2⟩

theorem multiMapValues_insert {α : Type} (items : List (Int × α)) (k : Int) (v : α) (key : Int) :
    multiMapValues (multiMapInsert items k v) key
      = if k = key then v :: multiMapValues items key else multiMapValues items key := by
  induction items with
  | nil =>
    by_cases h : k = key <;> simp [multiMapInsert, multiMapValues, h]
  | cons item items ih =>
    obtain ⟨k', v'⟩ := item
    unfold multiMapInsert
    by_cases hlt : k' < k
    · rw [if_pos hlt]
      have hne : k' ≠ k := ne_of_lt hlt
      by_cases h : k = key
      · subst h
        have ih' := ih
        rw [if_pos rfl] at ih'
        unfold multiMapValues at ih' ⊢
        rw [if_pos rfl, List.filter_cons, List.filter_cons]
        simp only [hne, decide_False, Bool.false_eq_true, if_false]
        exact ih'
      · rw [if_neg h] at ih ⊢
        unfold multiMapValues at ih ⊢
        rw [List.filter_cons, List.filter_cons]
        split
        · simp only [List.map_cons, ih]
        · exact ih
    · rw [if_neg hlt]
      by_cases h : k = key <;> simp [multiMapValues, List.filter_cons, h]

theorem multiMapValues_foldl {α : Type} (f : α → Int) (entries : List α) (items : List (Int × α))
    (key : Int) :
    multiMapValues (entries.foldl (fun map entry => multiMapInsert map (f entry) entry) items) key
      = (entries.filter (fun entry => decide (f entry = key))).reverse
        ++ multiMapValues items key := by
  induction entries generalizing items with
  | nil => simp
  | cons e es ih =>
    rw [List.foldl_cons, ih, multiMapValues_insert, List.filter_cons]
    by_cases h : f e = key <;> simp [h]

theorem mem_keys_insert {α : Type} (items : List (Int × α)) (k : Int) (v : α) (key : Int) :
    key ∈ (multiMapInsert items k v).map Prod.fst ↔ key = k ∨ key ∈ items.map Prod.fst := by
  induction items with
  | nil => simp [multiMapInsert]
  | cons item items ih =>
    obtain ⟨k', v'⟩ := item
    unfold multiMapInsert
    by_cases hlt : k' < k
    · rw [if_pos hlt]
      simp only [List.map_cons, List.mem_cons, ih]
      tauto
    · rw [if_neg hlt]
      simp

theorem mem_keys_foldl {α : Type} (f : α → Int) (entries : List α) (items : List (Int × α)) (key : Int) :
    key ∈ (entries.foldl (fun map entry => multiMapInsert map (f entry) entry) items).map Prod.fst
      ↔ (∃ entry ∈ entries, f entry = key) ∨ key ∈ items.map Prod.fst := by
  induction entries generalizing items with
  | nil => simp
  | cons e es ih =>
    rw [List.foldl_cons, ih, mem_keys_insert]
    simp only [List.mem_cons, exists_eq_or_imp]
    constructor
    · rintro (h | h | h)
      · exact Or.inl (Or.inr h)
      · exact Or.inl (Or.inl h.symm)
      · exact Or.inr h
    · rintro ((h | h) | h)
      · exact Or.inr (Or.inl h.symm)
      · exact Or.inl h
      · exact Or.inr (Or.inr h)

theorem pairwise_orderedInsert (a : Int) (keys : List Int)
    (h : keys.Pairwise (fun l r => l ≥ r)) :
    (keys.orderedInsert (fun l r => l > r) a).Pairwise (fun l r => l ≥ r) := by
  induction keys with
  | nil => simp
  | cons b keys ih =>
    rw [List.orderedInsert]
    rw [List.pairwise_cons] at h
    by_cases hab : a > b
    · rw [if_pos hab]
      refine List.pairwise_cons.mpr ⟨?_, List.pairwise_cons.mpr h⟩
      intro c hc
      rcases List.mem_cons.mp hc with rfl | hc
      · exact le_of_lt hab
      · exact le_trans (h.1 c hc) (le_of_lt hab)
    · rw [if_neg hab]
      refine List.pairwise_cons.mpr ⟨?_, ih h.2⟩
      intro c hc
      rcases (List.mem_orderedInsert _).mp hc with rfl | hc
      · exact not_lt.mp hab
      · exact h.1 c hc

theorem pairwise_insertionSort (keys : List Int) :
    (keys.insertionSort (fun l r => l > r)).Pairwise (fun l r => l ≥ r) := by
  induction keys with
  | nil => simp
  | cons a keys ih =>
    rw [List.insertionSort]
    exact pairwise_orderedInsert a _ ih

/-- Grouping a list by key, over a duplicate-free list of keys that covers it, permutes it. -/
theorem flatMap_filter_perm {α : Type} (f : α → Int) (keys : List Int) (hnodup : keys.Nodup)
    (entries : List α) (hcover : ∀ entry ∈ entries, f entry ∈ keys) :
    (keys.flatMap (fun key => entries.filter (fun entry => decide (f entry = key)))).Perm
      entries := by
  induction keys generalizing entries with
  | nil =>
    cases entries with
    | nil => simp
    | cons e es => exact absurd (hcover e (List.mem_cons_self _ _)) (List.not_mem_nil _)
  | cons k keys ih =>
    rw [List.flatMap_cons]
    have hk : k ∉ keys := (List.nodup_cons.mp hnodup).1
    have hrest : keys.flatMap (fun key => entries.filter (fun entry => decide (f entry = key)))
        = keys.flatMap (fun key =>
            (entries.filter (fun entry => !decide (f entry = k))).filter
              (fun entry => decide (f entry = key))) := by
      apply List.flatMap_congr
      intro key hkey
      rw [List.filter_filter]
      apply List.filter_congr
      intro entry _
      by_cases h : f entry = key
      · have hne : key ≠ k := fun e => hk (e ▸ hkey)
        simp [h, hne]
      · simp [h]
    rw [hrest]
    have hih := ih (List.nodup_cons.mp hnodup).2
      (entries.filter (fun entry => !decide (f entry = k))) (by
        intro entry hentry
        rw [List.mem_filter] at hentry
        rcases List.mem_cons.mp (hcover entry hentry.1) with h | h
        · simp [h] at hentry
        · exact h)
    exact (List.Perm.append_left _ hih).trans (List.filter_append_perm _ entries)

theorem filter_flatMap_groups {α : Type} (f : α → Int) (group : Int → List α)
    (hgroup : ∀ key, ∀ entry ∈ group key, f entry = key)
    (keys : List Int) (hnodup : keys.Nodup) (key : Int) :
    (keys.flatMap group).filter (fun entry => decide (f entry = key))
      = if key ∈ keys then group key else [] := by
  induction keys with
  | nil => simp
  | cons k keys ih =>
    rw [List.flatMap_cons, List.filter_append, ih (List.nodup_cons.mp hnodup).2]
    have hk : k ∉ keys := (List.nodup_cons.mp hnodup).1
    by_cases h : key = k
    · subst h
      have hall : (group key).filter (fun entry => decide (f entry = key)) = group key := by
        rw [List.filter_eq_self]
        intro entry hentry
        simp [hgroup key entry hentry]
      simp [hall, hk]
    · have hnone : (group k).filter (fun entry => decide (f entry = key)) = [] := by
        rw [List.filter_eq_nil_iff]
        intro entry hentry
        simp [hgroup k entry hentry, Ne.symm h]
      simp [hnone, h]

theorem collectResults_false (priorities : List (Int × Entry)) (keys : List Int)
    (results : List Entry) :
    collectResults false priorities keys results
      = results ++ keys.flatMap (multiMapValues priorities) := by
  induction keys generalizing results with
  | nil => simp [collectResults]
  | cons key keys ih =>
    simp only [collectResults, Bool.false_and, Bool.false_eq_true, if_false, ih,
      List.flatMap_cons, List.append_assoc]

theorem collectResults_true (priorities : List (Int × Entry)) (key : Int) (keys : List Int)
    (hne : multiMapValues priorities key ≠ []) :
    collectResults true priorities (key :: keys) [] = multiMapValues priorities key := by
  cases hv : multiMapValues priorities key with
  | nil => exact absurd hv hne
  | cons v vs => simp [collectResults, hv]

/-- The values that the map of `sortEntries` holds for a score are the entries of the
input with that score, last one first. -/
theorem multiMapValues_sortPriorities {U : Type} (api : QUrlApi U) (pwEntries : List Entry)
    (siteUrl formUrl : String) (key : Int) :
    multiMapValues (sortPriorities api pwEntries siteUrl formUrl) key
      = scoreGroup api pwEntries siteUrl formUrl key := by
  unfold sortPriorities scoreGroup
  rw [multiMapValues_foldl (fun entry => sortPriority api (getEntryURLs entry) siteUrl formUrl)]
  simp [multiMapValues, entryScore]

/-- The sorted keys of `sortEntries` are the scores of the input. -/
theorem mem_sortedKeys {U : Type} (api : QUrlApi U) (pwEntries : List Entry)
    (siteUrl formUrl : String) (key : Int) :
    key ∈ sortedKeys api pwEntries siteUrl formUrl
      ↔ ∃ entry ∈ pwEntries, entryScore api siteUrl formUrl entry = key := by
  unfold sortedKeys multiMapUniqueKeys sortPriorities
  rw [List.mem_insertionSort, List.mem_dedup,
    mem_keys_foldl (fun entry => sortPriority api (getEntryURLs entry) siteUrl formUrl)]
  simp [entryScore]

theorem nodup_sortedKeys {U : Type} (api : QUrlApi U) (pwEntries : List Entry)
    (siteUrl formUrl : String) : (sortedKeys api pwEntries siteUrl formUrl).Nodup := by
  unfold sortedKeys multiMapUniqueKeys
  exact (List.perm_insertionSort _ _).nodup_iff.mpr (List.nodup_dedup _)

theorem pairwise_sortedKeys {U : Type} (api : QUrlApi U) (pwEntries : List Entry)
    (siteUrl formUrl : String) :
    (sortedKeys api pwEntries siteUrl formUrl).Pairwise (fun l r => l ≥ r) :=
  pairwise_insertionSort _

theorem mem_scoreGroup {U : Type} (api : QUrlApi U) (pwEntries : List Entry)
    (siteUrl formUrl : String) (key : Int) (entry : Entry) :
    entry ∈ scoreGroup api pwEntries siteUrl formUrl key
      ↔ entry ∈ pwEntries ∧ entryScore api siteUrl formUrl entry = key := by
  simp [scoreGroup]

/-- Without best-match-only mode `sortEntries` returns the score groups from the highest
score to the lowest. -/
theorem sortEntries_all {U : Type} (api : QUrlApi U) (settings : BrowserSettings)
    (pwEntries : List Entry) (siteUrl formUrl : String)
    (hbest : settings.bestMatchOnly = false) :
    sortEntries api settings pwEntries siteUrl formUrl
      = (sortedKeys api pwEntries siteUrl formUrl).flatMap
          (scoreGroup api pwEntries siteUrl formUrl) := by
  have hsort : sortEntries api settings pwEntries siteUrl formUrl
      = collectResults settings.bestMatchOnly (sortPriorities api pwEntries siteUrl formUrl)
          (sortedKeys api pwEntries siteUrl formUrl) [] := rfl
  rw [hsort, hbest, collectResults_false, List.nil_append]
  apply List.flatMap_congr
  intro key _
  exact multiMapValues_sortPriorities api pwEntries siteUrl formUrl key

/-- In best-match-only mode `sortEntries` returns the score group of the first sorted key. -/
theorem sortEntries_best {U : Type} (api : QUrlApi U) (settings : BrowserSettings)
    (pwEntries : List Entry) (siteUrl formUrl : String)
    (hbest : settings.bestMatchOnly = true) :
    sortEntries api settings pwEntries siteUrl formUrl
      = match sortedKeys api pwEntries siteUrl formUrl with
        | [] => []
        | key :: _ => scoreGroup api pwEntries siteUrl formUrl key := by
  have hsort : sortEntries api settings pwEntries siteUrl formUrl
      = collectResults settings.bestMatchOnly (sortPriorities api pwEntries siteUrl formUrl)
          (sortedKeys api pwEntries siteUrl formUrl) [] := rfl
  rw [hsort, hbest]
  cases hkeys : sortedKeys api pwEntries siteUrl formUrl with
  | nil => rfl
  | cons key keys =>
    have hmem : key ∈ sortedKeys api pwEntries siteUrl formUrl := by
      rw [hkeys]
      exact List.mem_cons_self _ _
    obtain ⟨entry, hentry, hscore⟩ := (mem_sortedKeys api pwEntries siteUrl formUrl key).mp hmem
    have hne : multiMapValues (sortPriorities api pwEntries siteUrl formUrl) key ≠ [] := by
      rw [multiMapValues_sortPriorities]
      exact List.ne_nil_of_mem
        ((mem_scoreGroup api pwEntries siteUrl formUrl key entry).mpr ⟨hentry, hscore⟩)
    rw [collectResults_true _ _ _ hne, multiMapValues_sortPriorities]

theorem pairwise_scoreGroup {U : Type} (api : QUrlApi U) (pwEntries : List Entry)
    (siteUrl formUrl : String) (key : Int) :
    (scoreGroup api pwEntries siteUrl formUrl key).Pairwise
      (fun a b => entryScore api siteUrl formUrl a ≥ entryScore api siteUrl formUrl b) := by
  apply List.pairwise_of_forall_mem_list
  intro a ha b hb
  rw [((mem_scoreGroup api pwEntries siteUrl formUrl key a).mp ha).2,
    ((mem_scoreGroup api pwEntries siteUrl formUrl key b).mp hb).2]

/-- C21: for every list of entries and every query, the list that `sortEntries` returns is
ordered by entry score in non-increasing order: no entry comes before an entry with a
strictly higher score. -/
theorem sortEntries_sorted {U : Type} (api : QUrlApi U) (settings : BrowserSettings)
    (pwEntries : List Entry) (siteUrl formUrl : String) :
    (sortEntries api settings pwEntries siteUrl formUrl).Pairwise
      (fun a b => entryScore api siteUrl formUrl a ≥ entryScore api siteUrl formUrl b) := by
  cases hbest : settings.bestMatchOnly
  · rw [sortEntries_all api settings pwEntries siteUrl formUrl hbest, List.pairwise_flatMap]
    refine ⟨fun key _ => pairwise_scoreGroup api pwEntries siteUrl formUrl key, ?_⟩
    refine (pairwise_sortedKeys api pwEntries siteUrl formUrl).imp ?_
    intro k1 k2 hk a ha b hb
    rw [((mem_scoreGroup api pwEntries siteUrl formUrl k1 a).mp ha).2,
      ((mem_scoreGroup api pwEntries siteUrl formUrl k2 b).mp hb).2]
    exact hk
  · rw [sortEntries_best api settings pwEntries siteUrl formUrl hbest]
    cases sortedKeys api pwEntries siteUrl formUrl with
    | nil => exact List.Pairwise.nil
    | cons key keys => exact pairwise_scoreGroup api pwEntries siteUrl formUrl key

/-- Counterexample to C22 as stated, the entries of the tests: for the site
`https://subdomain.example.com/` the entries with and without the slash both score 100;
the one with the slash comes first in the input and last in the result. -/
theorem sortEntries_stable_counterexample :
    entryScore simpleApi "https://subdomain.example.com/" "https://subdomain.example.com/"
        slashEntry = 100
    ∧ entryScore simpleApi "https://subdomain.example.com/" "https://subdomain.example.com/"
        noSlashEntry = 100
    ∧ sortEntries simpleApi sampleSettings [slashEntry, noSlashEntry]
        "https://subdomain.example.com/" "https://subdomain.example.com/"
      = [noSlashEntry, slashEntry] := by
  decide

/-- C22, amended: within a score `sortEntries` reverses the input order.  For every input
list and every score that occurs in the result, the entries of the result with that score
are the entries of the input with that score in reverse order: of two entries with the
same score, the one that comes later in the input list comes first in the result. -/
theorem sortEntries_reverses_score_group {U : Type} (api : QUrlApi U)
    (settings : BrowserSettings) (pwEntries : List Entry) (siteUrl formUrl : String) (key : Int)
    (hoccurs : ∃ entry ∈ sortEntries api settings pwEntries siteUrl formUrl,
      entryScore api siteUrl formUrl entry = key) :
    (sortEntries api settings pwEntries siteUrl formUrl).filter
        (fun entry => decide (entryScore api siteUrl formUrl entry = key))
      = (pwEntries.filter
          (fun entry => decide (entryScore api siteUrl formUrl entry = key))).reverse := by
  obtain ⟨entry, hentry, hscore⟩ := hoccurs
  have hself : (scoreGroup api pwEntries siteUrl formUrl key).filter
      (fun entry => decide (entryScore api siteUrl formUrl entry = key))
        = scoreGroup api pwEntries siteUrl formUrl key := by
    rw [List.filter_eq_self]
    intro a ha
    simp [((mem_scoreGroup api pwEntries siteUrl formUrl key a).mp ha).2]
  cases hbest : settings.bestMatchOnly
  · rw [sortEntries_all api settings pwEntries siteUrl formUrl hbest] at hentry ⊢
    rw [filter_flatMap_groups (entryScore api siteUrl formUrl)
      (scoreGroup api pwEntries siteUrl formUrl)
      (fun k a ha => ((mem_scoreGroup api pwEntries siteUrl formUrl k a).mp ha).2)
      _ (nodup_sortedKeys api pwEntries siteUrl formUrl)]
    obtain ⟨k, hk, hin⟩ := List.mem_flatMap.mp hentry
    have hkk : k = key := by
      rw [← ((mem_scoreGroup api pwEntries siteUrl formUrl k entry).mp hin).2, hscore]
    rw [if_pos (hkk ▸ hk)]
    rfl
  · rw [sortEntries_best api settings pwEntries siteUrl formUrl hbest] at hentry ⊢
    cases hkeys : sortedKeys api pwEntries siteUrl formUrl with
    | nil =>
      rw [hkeys] at hentry
      exact absurd hentry (List.not_mem_nil _)
    | cons k keys =>
      rw [hkeys] at hentry
      simp only at hentry ⊢
      have hkk : k = key := by
        rw [← ((mem_scoreGroup api pwEntries siteUrl formUrl k entry).mp hentry).2, hscore]
      rw [hkk, hself]
      rfl

/-- Witness of the amended C22 on the entries of the tests. -/
theorem sortEntries_reverses_score_group_witness :
    (∃ entry ∈ sortEntries simpleApi sampleSettings [slashEntry, otherPathEntry, noSlashEntry]
        "https://subdomain.example.com/" "https://subdomain.example.com/",
      entryScore simpleApi "https://subdomain.example.com/" "https://subdomain.example.com/"
        entry = 100)
    ∧ (sortEntries simpleApi sampleSettings [slashEntry, otherPathEntry, noSlashEntry]
        "https://subdomain.example.com/" "https://subdomain.example.com/").filter
        (fun entry => decide (entryScore simpleApi "https://subdomain.example.com/"
          "https://subdomain.example.com/" entry = 100))
      = [noSlashEntry, slashEntry] :=
  ⟨⟨noSlashEntry, by decide, by decide⟩,
    (sortEntries_reverses_score_group simpleApi sampleSettings
      [slashEntry, otherPathEntry, noSlashEntry] "https://subdomain.example.com/"
      "https://subdomain.example.com/" 100 ⟨noSlashEntry, by decide, by decide⟩).trans
      (by decide)⟩

/-- C23: in best-match-only mode, for every non-empty input list, `sortEntries` returns
exactly the entries whose score is the maximum score of the input, each as often as it
occurs in the input, and no entry with a lower score. -/
theorem sortEntries_best_match {U : Type} (api : QUrlApi U) (settings : BrowserSettings)
    (pwEntries : List Entry) (siteUrl formUrl : String)
    (hbest : settings.bestMatchOnly = true) (hne : pwEntries ≠ []) :
    ∃ best : Int,
      (∀ entry ∈ pwEntries, entryScore api siteUrl formUrl entry ≤ best)
      ∧ (∃ entry ∈ pwEntries, entryScore api siteUrl formUrl entry = best)
      ∧ (sortEntries api settings pwEntries siteUrl formUrl).Perm
          (pwEntries.filter (fun entry => decide (entryScore api siteUrl formUrl entry = best)))
      ∧ (∀ entry ∈ sortEntries api settings pwEntries siteUrl formUrl,
          entryScore api siteUrl formUrl entry = best) := by
  rw [sortEntries_best api settings pwEntries siteUrl formUrl hbest]
  cases hkeys : sortedKeys api pwEntries siteUrl formUrl with
  | nil =>
    obtain ⟨first, hfirst⟩ := List.exists_mem_of_ne_nil pwEntries hne
    have hmem := (mem_sortedKeys api pwEntries siteUrl formUrl _).mpr ⟨first, hfirst, rfl⟩
    rw [hkeys] at hmem
    exact absurd hmem (List.not_mem_nil _)
  | cons key keys =>
    have hpair := pairwise_sortedKeys api pwEntries siteUrl formUrl
    rw [hkeys, List.pairwise_cons] at hpair
    refine ⟨key, ?_, ?_, List.reverse_perm _, ?_⟩
    · intro entry hentry
      have hmem := (mem_sortedKeys api pwEntries siteUrl formUrl _).mpr ⟨entry, hentry, rfl⟩
      rw [hkeys] at hmem
      rcases List.mem_cons.mp hmem with h | h
      · exact le_of_eq h
      · exact hpair.1 _ h
    · exact (mem_sortedKeys api pwEntries siteUrl formUrl key).mp
        (hkeys ▸ List.mem_cons_self _ _)
    · intro entry hentry
      exact ((mem_scoreGroup api pwEntries siteUrl formUrl key entry).mp hentry).2

/-- Witness of C23: of three entries scoring 100, 80 and 100 the two scoring 100 are
returned. -/
theorem sortEntries_best_match_witness :
    (bestMatchSettings.bestMatchOnly = true
      ∧ [loginEntry, otherPathEntry, secondLoginEntry] ≠ [])
    ∧ ([loginEntry, otherPathEntry, secondLoginEntry].map
        (entryScore simpleApi "https://github.com/login" "https://github.com/session")
      = [100, 80, 100])
    ∧ (∃ best : Int,
      (∀ entry ∈ [loginEntry, otherPathEntry, secondLoginEntry],
        entryScore simpleApi "https://github.com/login" "https://github.com/session" entry
          ≤ best)
      ∧ (∃ entry ∈ [loginEntry, otherPathEntry, secondLoginEntry],
        entryScore simpleApi "https://github.com/login" "https://github.com/session" entry
          = best)
      ∧ (sortEntries simpleApi bestMatchSettings [loginEntry, otherPathEntry, secondLoginEntry]
          "https://github.com/login" "https://github.com/session").Perm
          ([loginEntry, otherPathEntry, secondLoginEntry].filter (fun entry =>
            decide (entryScore simpleApi "https://github.com/login"
              "https://github.com/session" entry = best)))
      ∧ (∀ entry ∈ sortEntries simpleApi bestMatchSettings
          [loginEntry, otherPathEntry, secondLoginEntry]
          "https://github.com/login" "https://github.com/session",
        entryScore simpleApi "https://github.com/login" "https://github.com/session" entry
          = best))
    ∧ sortEntries simpleApi bestMatchSettings [loginEntry, otherPathEntry, secondLoginEntry]
        "https://github.com/login" "https://github.com/session"
      = [secondLoginEntry, loginEntry] :=
  ⟨⟨rfl, by decide⟩, by decide,
    sortEntries_best_match simpleApi bestMatchSettings
      [loginEntry, otherPathEntry, secondLoginEntry] "https://github.com/login"
      "https://github.com/session" rfl (by decide),
    by decide⟩

/-- C29: when best-match-only mode is off, `sortEntries` neither drops nor invents entries:
for every input list the result is a permutation of the input list. -/
theorem sortEntries_perm {U : Type} (api : QUrlApi U) (settings : BrowserSettings)
    (pwEntries : List Entry) (siteUrl formUrl : String)
    (hbest : settings.bestMatchOnly = false) :
    (sortEntries api settings pwEntries siteUrl formUrl).Perm pwEntries := by
  rw [sortEntries_all api settings pwEntries siteUrl formUrl hbest]
  refine (List.Perm.flatMap_left _ (fun key _ => List.reverse_perm _)).trans ?_
  exact flatMap_filter_perm (entryScore api siteUrl formUrl) _
    (nodup_sortedKeys api pwEntries siteUrl formUrl) pwEntries
    (fun entry hentry =>
      (mem_sortedKeys api pwEntries siteUrl formUrl _).mpr ⟨entry, hentry, rfl⟩)

/-- Witness of C29: an input with an entry scoring 0 and an entry that occurs twice. -/
theorem sortEntries_perm_witness :
    sampleSettings.bestMatchOnly = false
    ∧ entryScore simpleApi "https://github.com/login" "https://github.com/session" httpEntry = 0
    ∧ (sortEntries simpleApi sampleSettings [httpEntry, loginEntry, otherPathEntry, loginEntry]
        "https://github.com/login" "https://github.com/session").Perm
        [httpEntry, loginEntry, otherPathEntry, loginEntry]
    ∧ sortEntries simpleApi sampleSettings [httpEntry, loginEntry, otherPathEntry, loginEntry]
        "https://github.com/login" "https://github.com/session"
      = [loginEntry, loginEntry, otherPathEntry, httpEntry] :=
  ⟨rfl, by decide,
    sortEntries_perm simpleApi sampleSettings [httpEntry, loginEntry, otherPathEntry, loginEntry]
      "https://github.com/login" "https://github.com/session" rfl,
    by decide⟩

/-! ## Theorems: hostname truncation -/

/-- The position of a character that does not occur. -/
theorem indexOfChars_of_not_mem (c : Char) (text : List Char) (h : c ∉ text) :
    indexOfChars c text = -1 := by
  induction text with
  | nil => rfl
  | cons x xs ih =>
    have hx : x ≠ c := fun e => h (by simp [e])
    have hxs : c ∉ xs := fun hm => h (List.mem_cons_of_mem _ hm)
    simp [indexOfChars, hx, ih hxs]

/-- The position of the first occurrence of a character. -/
theorem indexOfChars_append (c : Char) (front back : List Char) (h : c ∉ front) :
    indexOfChars c (front ++ c :: back) = front.length := by
  induction front with
  | nil => simp [indexOfChars]
  | cons x xs ih =>
    have hx : x ≠ c := fun e => h (by simp [e])
    have hxs : c ∉ xs := fun hm => h (List.mem_cons_of_mem _ hm)
    have hnot : ¬ ((xs.length : Int) < 0) := by omega
    have ih2 : indexOfChars c (xs ++ c :: back) = (xs.length : Int) := ih hxs
    show indexOfChars c (x :: (xs ++ c :: back)) = ((x :: xs).length : Int)
    simp only [indexOfChars, if_neg hx, ih2, if_neg hnot, List.length_cons]
    push_cast
    ring

/-- A hostname without a dot: nothing is removed. -/
theorem removeFirstDomain_of_not_mem (hostname : String) (h : '.' ∉ hostname.data) :
    removeFirstDomain hostname = (false, hostname) := by
  unfold removeFirstDomain qIndexOf
  simp [indexOfChars_of_not_mem _ _ h]

/-- A hostname split at its first dot: the part before the dot is removed when the rest
has a dot of its own. -/
theorem removeFirstDomain_of_split (hostname : String) (front back : List Char)
    (hsplit : hostname.data = front ++ '.' :: back) (hfront : '.' ∉ front) :
    removeFirstDomain hostname
      = if '.' ∈ back then (true, String.mk back) else (false, hostname) := by
  have hcount : qCount hostname '.' = back.count '.' + 1 := by
    unfold qCount
    rw [hsplit, List.count_append, List.count_cons_self, List.count_eq_zero_of_not_mem hfront]
    omega
  have hnot : ¬ ((front.length : Int) < 0) := by omega
  have hmid : qMid hostname ((front.length : Int) + 1) = String.mk back := by
    unfold qMid
    have hnat : ((front.length : Int) + 1).toNat = front.length + 1 := by omega
    rw [hnat, hsplit]
    simp
  unfold removeFirstDomain qIndexOf
  simp only [hsplit, indexOfChars_append _ _ _ hfront, if_neg hnot]
  rw [hcount, hmid]
  by_cases hmem : '.' ∈ back
  · have hpos : back.count '.' + 1 > 1 := by
      have := List.count_pos_iff.mpr hmem
      omega
    have hne : qIsEmpty (String.mk back) = false := by
      unfold qIsEmpty
      have : String.mk back ≠ "" := by
        intro e
        have := congrArg String.data e
        simp at this
        rw [this] at hmem
        simp at hmem
      simp [this]
    simp [hpos, hmem, hne]
  · have hzero : back.count '.' = 0 := List.count_eq_zero_of_not_mem hmem
    simp [hzero, hmem]

/-- The three cases of `removeFirstDomain` by the number of dots. -/
theorem removeFirstDomain_cases (hostname : String) :
    (qCount hostname '.' < 2 ∧ removeFirstDomain hostname = (false, hostname))
    ∨ (2 ≤ qCount hostname '.' ∧ ∃ front back : List Char,
        hostname.data = front ++ '.' :: back ∧ '.' ∉ front ∧ '.' ∈ back
          ∧ removeFirstDomain hostname = (true, String.mk back)) := by
  by_cases hdot : '.' ∈ hostname.data
  · obtain ⟨front, back, hsplit, hfront⟩ := List.eq_append_cons_of_mem hdot
    have hcount : qCount hostname '.' = back.count '.' + 1 := by
      unfold qCount
      rw [hsplit, List.count_append, List.count_cons_self, List.count_eq_zero_of_not_mem hfront]
      omega
    by_cases hmem : '.' ∈ back
    · right
      have := List.count_pos_iff.mpr hmem
      refine ⟨by omega, front, back, hsplit, hfront, hmem, ?_⟩
      rw [removeFirstDomain_of_split hostname front back hsplit hfront, if_pos hmem]
    · left
      have hzero : back.count '.' = 0 := List.count_eq_zero_of_not_mem hmem
      refine ⟨by omega, ?_⟩
      rw [removeFirstDomain_of_split hostname front back hsplit hfront, if_neg hmem]
  · left
    have hzero : qCount hostname '.' = 0 := List.count_eq_zero_of_not_mem hdot
    exact ⟨by omega, removeFirstDomain_of_not_mem hostname hdot⟩

/-- A successful call shortens the hostname and takes one dot away. -/
theorem removeFirstDomain_true (hostname : String) (h : (removeFirstDomain hostname).1 = true) :
    2 ≤ qCount hostname '.'
      ∧ (removeFirstDomain hostname).2.data.length < hostname.data.length
      ∧ qCount (removeFirstDomain hostname).2 '.' + 1 = qCount hostname '.' := by
  rcases removeFirstDomain_cases hostname with ⟨_, heq⟩ | ⟨hcount, front, back, hsplit, hfront, _, heq⟩
  · rw [heq] at h
    simp at h
  · refine ⟨hcount, ?_, ?_⟩
    · rw [heq, hsplit]
      simp
      omega
    · rw [heq]
      unfold qCount
      rw [hsplit, List.count_append, List.count_cons_self, List.count_eq_zero_of_not_mem hfront]
      simp

/-- The number of dots after repeated calls, as long as the calls succeed. -/
theorem qCount_iterate_removeFirstDomain (hostname : String) (n : Nat)
    (hn : n + 1 ≤ qCount hostname '.') :
    qCount (Nat.iterate (fun h => (removeFirstDomain h).2) n hostname) '.' + n
      = qCount hostname '.' := by
  induction n with
  | zero => rfl
  | succ n ih =>
    have ihn := ih (by omega)
    rw [Function.iterate_succ_apply']
    have htrue : (removeFirstDomain (Nat.iterate (fun h => (removeFirstDomain h).2) n hostname)).1
        = true := by
      rcases removeFirstDomain_cases (Nat.iterate (fun h => (removeFirstDomain h).2) n hostname)
        with ⟨hlt, _⟩ | ⟨_, _, _, _, _, _, heq⟩
      · omega
      · rw [heq]
    have := (removeFirstDomain_true _ htrue).2.2
    omega

/-- The do-while loop ends when it may make more passes than the hostname has
characters. -/
theorem searchLoop_isSome {U : Type} (api : QUrlApi U) (settings : BrowserSettings)
    (databases : List Database) (siteUrl formUrl : String) (fuel : Nat) (hostname : String)
    (entries : List Entry) (hfuel : hostname.data.length < fuel) :
    (searchLoop api settings databases siteUrl formUrl fuel hostname entries).isSome = true := by
  induction fuel generalizing hostname entries with
  | zero => omega
  | succ fuel ih =>
    unfold searchLoop
    by_cases hcond : ((searchPass api settings databases siteUrl formUrl entries).isEmpty
        && (removeFirstDomain hostname).1) = true
    · simp only [hcond, if_true]
      have htrue : (removeFirstDomain hostname).1 = true := by
        simp only [Bool.and_eq_true] at hcond
        exact hcond.2
      exact ih _ _ (by have := (removeFirstDomain_true hostname htrue).2.1; omega)
    · simp only [hcond]
      simp

/-- The do-while loop started with no entries returns what its first pass found: every
further pass searches with the same site URL and finds nothing again. -/
theorem searchLoop_eq_first_pass {U : Type} (api : QUrlApi U) (settings : BrowserSettings)
    (databases : List Database) (siteUrl formUrl : String) (fuel : Nat) (hostname : String)
    (hfuel : hostname.data.length < fuel) :
    searchLoop api settings databases siteUrl formUrl fuel hostname []
      = some (searchPass api settings databases siteUrl formUrl []) := by
  induction fuel generalizing hostname with
  | zero => omega
  | succ fuel ih =>
    unfold searchLoop
    by_cases hcond : ((searchPass api settings databases siteUrl formUrl []).isEmpty
        && (removeFirstDomain hostname).1) = true
    · simp only [hcond, if_true]
      simp only [Bool.and_eq_true] at hcond
      have hnil : searchPass api settings databases siteUrl formUrl [] = [] :=
        List.isEmpty_iff.mp hcond.1
      rw [hnil]
      have := ih (removeFirstDomain hostname).2
        (by have := (removeFirstDomain_true hostname hcond.2).2.1; omega)
      rw [hnil] at this
      exact this
    · simp only [hcond]
      simp

/-- C26: `removeFirstDomain` returns true exactly for a hostname with at least two dots;
the hostname is then replaced by the text after its first dot, which is not empty, is
shorter and has one dot fewer; when it returns false the hostname is unchanged; the calls
repeated on a hostname succeed exactly (number of dots - 1) times, none for a hostname
with fewer than two dots, and the next call returns false; and the fallback loop of
`searchEntries` ends: given one pass more than the hostname has characters it returns. -/
theorem removeFirstDomain_terminates (hostname : String) :
    ((removeFirstDomain hostname).1 = true ↔ 2 ≤ qCount hostname '.')
    ∧ ((removeFirstDomain hostname).1 = true →
        (∃ front : List Char, '.' ∉ front
          ∧ hostname.data = front ++ '.' :: (removeFirstDomain hostname).2.data)
        ∧ (removeFirstDomain hostname).2 ≠ ""
        ∧ (removeFirstDomain hostname).2.data.length < hostname.data.length
        ∧ qCount (removeFirstDomain hostname).2 '.' + 1 = qCount hostname '.')
    ∧ ((removeFirstDomain hostname).1 = false → (removeFirstDomain hostname).2 = hostname)
    ∧ (∀ n, n < qCount hostname '.' - 1 →
        (removeFirstDomain (Nat.iterate (fun h => (removeFirstDomain h).2) n hostname)).1 = true)
    ∧ (removeFirstDomain (Nat.iterate (fun h => (removeFirstDomain h).2)
        (qCount hostname '.' - 1) hostname)).1 = false
    ∧ (∀ {U : Type} (api : QUrlApi U) (settings : BrowserSettings) (databases : List Database)
        (siteUrl formUrl : String) (entries : List Entry),
        (searchLoop api settings databases siteUrl formUrl (hostname.data.length + 1)
          hostname entries).isSome = true) := by
  refine ⟨?_, ?_, ?_, ?_, ?_, ?_⟩
  · constructor
    · intro h
      exact (removeFirstDomain_true hostname h).1
    · intro h
      rcases removeFirstDomain_cases hostname with ⟨hlt, _⟩ | ⟨_, _, _, _, _, _, heq⟩
      · omega
      · rw [heq]
  · intro h
    rcases removeFirstDomain_cases hostname with ⟨_, heq⟩ | ⟨_, front, back, hsplit, hfront, hmem, heq⟩
    · rw [heq] at h
      simp at h
    · refine ⟨⟨front, hfront, ?_⟩, ?_, (removeFirstDomain_true hostname h).2.1,
        (removeFirstDomain_true hostname h).2.2⟩
      · rw [heq]
        exact hsplit
      · rw [heq]
        intro e
        have := congrArg String.data e
        simp at this
        rw [this] at hmem
        simp at hmem
  · intro h
    rcases removeFirstDomain_cases hostname with ⟨_, heq⟩ | ⟨_, _, _, _, _, _, heq⟩
    · rw [heq]
    · rw [heq] at h
      simp at h
  · intro n hn
    have hcount := qCount_iterate_removeFirstDomain hostname n (by omega)
    rcases removeFirstDomain_cases (Nat.iterate (fun h => (removeFirstDomain h).2) n hostname)
      with ⟨hlt, _⟩ | ⟨_, _, _, _, _, _, heq⟩
    · omega
    · rw [heq]
  · by_cases hdots : qCount hostname '.' = 0
    · rw [hdots]
      rcases removeFirstDomain_cases hostname with ⟨_, heq⟩ | ⟨hge, _⟩
      · simp [heq]
      · omega
    · have hcount := qCount_iterate_removeFirstDomain hostname (qCount hostname '.' - 1) (by omega)
      rcases removeFirstDomain_cases
          (Nat.iterate (fun h => (removeFirstDomain h).2) (qCount hostname '.' - 1) hostname)
        with ⟨_, heq⟩ | ⟨hge, _⟩
      · rw [heq]
      · omega
  · intro U api settings databases siteUrl formUrl entries
    exact searchLoop_isSome api settings databases siteUrl formUrl _ hostname entries (by omega)

theorem removeFirstDomain_terminates_witness :
    removeFirstDomain "sub.domain.example.com" = (true, "domain.example.com")
    ∧ removeFirstDomain "domain.example.com" = (true, "example.com")
    ∧ removeFirstDomain "example.com" = (false, "example.com")
    ∧ qCount "sub.domain.example.com" '.' = 3
    ∧ (removeFirstDomain (Nat.iterate (fun h => (removeFirstDomain h).2) 2
        "sub.domain.example.com")).1 = false := by
  refine ⟨by decide, by decide, by decide, by decide, ?_⟩
  exact (removeFirstDomain_terminates "sub.domain.example.com").2.2.2.2.1
/-- C24: the fallback of the multi-store `searchEntries` never searches a shortened
hostname.  The call returns what its first pass finds with the full site URL, for every
site, form URL, key list and set of databases; for the site host `sub.domain.example.com`
with no matching entry the loop makes three passes while `hostname` takes the values
`sub.domain.example.com`, `domain.example.com` and `example.com`, and each pass hands
the unchanged site URL to `searchEntries(db, siteUrl, formUrl)`; the result is empty. -/
theorem searchEntriesInDatabases_first_pass :
    (∀ {U : Type} (api : QUrlApi U) (settings : BrowserSettings) (widgets : DatabaseWidgets)
        (siteUrl formUrl : String) (keyList : List (String × String)),
        searchEntriesInDatabases api settings widgets siteUrl formUrl keyList
          = some (searchPass api settings (connectedDatabases settings widgets keyList)
              siteUrl formUrl []))
    ∧ connectedDatabases sampleSettings sampleWidgets sampleKeyList = [sampleDatabase]
    ∧ simpleApi.host (simpleApi.ofString "https://sub.domain.example.com")
        = "sub.domain.example.com"
    ∧ searchLoopPasses "https://sub.domain.example.com" 23 "sub.domain.example.com"
        = [("sub.domain.example.com", "https://sub.domain.example.com"),
           ("domain.example.com", "https://sub.domain.example.com"),
           ("example.com", "https://sub.domain.example.com")]
    ∧ searchEntriesInDatabases simpleApi sampleSettings sampleWidgets
        "https://sub.domain.example.com" "https://sub.domain.example.com" sampleKeyList
        = some [] := by
  have hgeneral : ∀ {U : Type} (api : QUrlApi U) (settings : BrowserSettings)
      (widgets : DatabaseWidgets) (siteUrl formUrl : String) (keyList : List (String × String)),
      searchEntriesInDatabases api settings widgets siteUrl formUrl keyList
        = some (searchPass api settings (connectedDatabases settings widgets keyList)
            siteUrl formUrl []) := by
    intro U api settings widgets siteUrl formUrl keyList
    unfold searchEntriesInDatabases
    exact searchLoop_eq_first_pass api settings _ siteUrl formUrl _ _ (by omega)
  refine ⟨hgeneral, by decide, by decide, by decide, ?_⟩
  rw [hgeneral]
  decide

/-! ## Theorems: URL identity -/

/-- C25: for non-empty `a` and `b` that are equal after trimming white space and then
removing one trailing slash if there is one (`trimUrl`), `isUrlIdentical` is true; and
`isUrlIdentical` is false when `a` or `b` is the empty string. -/
theorem isUrlIdentical_trimmed {U : Type} (api : QUrlApi U) (a b : String) :
    (a ≠ "" → b ≠ "" → trimUrl a = trimUrl b → isUrlIdentical api a b = true)
    ∧ (a = "" ∨ b = "" → isUrlIdentical api a b = false) := by
  constructor
  · intro ha hb heq
    unfold isUrlIdentical
    simp [qIsEmpty, ha, hb, heq]
  · intro h
    unfold isUrlIdentical
    rcases h with h | h <;> simp [qIsEmpty, h]

theorem isUrlIdentical_trimmed_witness :
    trimUrl "https://example.com/  " = "https://example.com"
    ∧ trimUrl "  https://example.com" = "https://example.com"
    ∧ trimUrl "https://example.com//" = "https://example.com/"
    ∧ isUrlIdentical simpleApi "https://example.com/  " "  https://example.com" = true
    ∧ isUrlIdentical simpleApi "" "https://example.com" = false
    ∧ isUrlIdentical simpleApi "https://example.com" "" = false :=
  ⟨by decide, by decide, by decide,
    (isUrlIdentical_trimmed simpleApi "https://example.com/  " "  https://example.com").1
      (by decide) (by decide) (by decide),
    (isUrlIdentical_trimmed simpleApi "" "https://example.com").2 (Or.inl rfl),
    (isUrlIdentical_trimmed simpleApi "https://example.com" "").2 (Or.inr rfl)⟩

/-! ## Theorems: label boundaries -/

/-- C27: `handleURL` accepts a stored host that is a string suffix of the site host
cutting through a label.  For the stored URL `https://b.example.com` and the site
`https://ab.example.com` (not a file URL) it returns true: both hosts have the base domain
`example.com`, and `ab.example.com` ends with `b.example.com`; yet the site host is not
the stored host and does not end with `.b.example.com`. -/
theorem handleURL_suffix_through_label :
    handleURL simpleApi sampleSettings "https://b.example.com" "https://ab.example.com"
        "https://ab.example.com" false = true
    ∧ qStartsWith "https://ab.example.com" "file://" = false
    ∧ simpleApi.host (simpleApi.ofString "https://ab.example.com") = "ab.example.com"
    ∧ simpleApi.host (entryQUrl simpleApi sampleSettings "https://b.example.com" false)
        = "b.example.com"
    ∧ getTopLevelDomainFromUrl simpleApi "ab.example.com" = "example.com"
    ∧ getTopLevelDomainFromUrl simpleApi "b.example.com" = "example.com"
    ∧ "ab.example.com" ≠ "b.example.com"
    ∧ qEndsWith "ab.example.com" ".b.example.com" = false := by
  decide

/-! ## Theorems: password references -/

/-- A reference without UUID keeps the loop on the same entry. -/
theorem updateEntryReferenceLoop_null (attributes : EntryAttributesApi) (db : Database)
    (entry : Entry) (href : attributes.isReference entry = true)
    (hnull : attributes.referenceUuid entry = nullUuid) (fuel : Nat) :
    updateEntryReferenceLoop attributes db fuel entry = none := by
  induction fuel with
  | zero => rfl
  | succ fuel ih =>
    unfold updateEntryReferenceLoop
    simp [href, hnull, ih]

/-- Two entries that refer to each other keep the loop going between them. -/
theorem updateEntryReferenceLoop_cycle (attributes : EntryAttributesApi) (db : Database)
    (first second : Entry)
    (hfirst : attributes.isReference first = true)
    (hsecond : attributes.isReference second = true)
    (hfirstUuid : attributes.referenceUuid first ≠ nullUuid)
    (hsecondUuid : attributes.referenceUuid second ≠ nullUuid)
    (hfirstFound : findEntryByUuid db (attributes.referenceUuid first) = some second)
    (hsecondFound : findEntryByUuid db (attributes.referenceUuid second) = some first)
    (fuel : Nat) :
    updateEntryReferenceLoop attributes db fuel first = none
      ∧ updateEntryReferenceLoop attributes db fuel second = none := by
  induction fuel with
  | zero => exact ⟨rfl, rfl⟩
  | succ fuel ih =>
    constructor
    · unfold updateEntryReferenceLoop
      simp [hfirst, hfirstUuid, hfirstFound, ih.2]
    · unfold updateEntryReferenceLoop
      simp [hsecond, hsecondUuid, hsecondFound, ih.1]

/-- C30: the reference loop of `updateEntry` does not end for every database and entry.
On an entry whose password is a reference with a null UUID the loop never leaves the
entry, and on two entries whose passwords refer to each other it alternates between them:
whatever the number of passes allowed, the loop has not ended.  A reference to an entry
whose password is no reference ends the loop on that entry, and a reference to a missing
entry ends it in `return false`. -/
theorem updateEntryReferenceLoop_diverges (attributes : EntryAttributesApi) (db : Database) :
    (∀ entry : Entry, attributes.isReference entry = true →
        attributes.referenceUuid entry = nullUuid →
        ∀ fuel, updateEntryReferenceLoop attributes db fuel entry = none)
    ∧ (∀ first second : Entry,
        attributes.isReference first = true → attributes.isReference second = true →
        attributes.referenceUuid first ≠ nullUuid → attributes.referenceUuid second ≠ nullUuid →
        findEntryByUuid db (attributes.referenceUuid first) = some second →
        findEntryByUuid db (attributes.referenceUuid second) = some first →
        ∀ fuel, updateEntryReferenceLoop attributes db fuel first = none)
    ∧ (∀ entry : Entry, attributes.isReference entry = false →
        ∀ fuel, updateEntryReferenceLoop attributes db (fuel + 1) entry = some (some entry))
    ∧ (∀ entry : Entry, attributes.isReference entry = true →
        attributes.referenceUuid entry ≠ nullUuid →
        findEntryByUuid db (attributes.referenceUuid entry) = none →
        ∀ fuel, updateEntryReferenceLoop attributes db (fuel + 1) entry = some none) := by
  refine ⟨?_, ?_, ?_, ?_⟩
  · intro entry href hnull fuel
    exact updateEntryReferenceLoop_null attributes db entry href hnull fuel
  · intro first second h1 h2 h3 h4 h5 h6 fuel
    exact (updateEntryReferenceLoop_cycle attributes db first second h1 h2 h3 h4 h5 h6 fuel).1
  · intro entry href fuel
    unfold updateEntryReferenceLoop
    simp [href]
  · intro entry href huuid hfound fuel
    unfold updateEntryReferenceLoop
    simp [href, huuid, hfound]

theorem updateEntryReferenceLoop_diverges_witness :
    sampleAttributes.isReference titleReferenceEntry = true
    ∧ sampleAttributes.referenceUuid titleReferenceEntry = nullUuid
    ∧ (∀ fuel, updateEntryReferenceLoop sampleAttributes referenceDatabase fuel
        titleReferenceEntry = none)
    ∧ findEntryByUuid referenceDatabase (sampleAttributes.referenceUuid firstCycleEntry)
        = some secondCycleEntry
    ∧ findEntryByUuid referenceDatabase (sampleAttributes.referenceUuid secondCycleEntry)
        = some firstCycleEntry
    ∧ (∀ fuel, updateEntryReferenceLoop sampleAttributes referenceDatabase fuel
        firstCycleEntry = none)
    ∧ updateEntryReferenceLoop sampleAttributes referenceDatabase 2 referringEntry
        = some (some sampleEntry) :=
  ⟨by decide, by decide,
    (updateEntryReferenceLoop_diverges sampleAttributes referenceDatabase).1
      titleReferenceEntry (by decide) (by decide),
    by decide, by decide,
    (updateEntryReferenceLoop_diverges sampleAttributes referenceDatabase).2.1
      firstCycleEntry secondCycleEntry (by decide) (by decide) (by decide) (by decide)
      (by decide) (by decide),
    by decide⟩

/-! ## Theorems: expired entries -/

/-- What `sortEntries` returns is taken from its input. -/
theorem mem_of_mem_sortEntries {U : Type} (api : QUrlApi U) (settings : BrowserSettings)
    (pwEntries : List Entry) (siteUrl formUrl : String) (entry : Entry)
    (h : entry ∈ sortEntries api settings pwEntries siteUrl formUrl) : entry ∈ pwEntries := by
  cases hbest : settings.bestMatchOnly
  · rw [sortEntries_all api settings pwEntries siteUrl formUrl hbest] at h
    obtain ⟨key, _, hmem⟩ := List.mem_flatMap.mp h
    exact ((mem_scoreGroup api pwEntries siteUrl formUrl key entry).mp hmem).1
  · rw [sortEntries_best api settings pwEntries siteUrl formUrl hbest] at h
    cases hkeys : sortedKeys api pwEntries siteUrl formUrl with
    | nil =>
      rw [hkeys] at h
      simp at h
    | cons key rest =>
      rw [hkeys] at h
      exact ((mem_scoreGroup api pwEntries siteUrl formUrl key entry).mp h).1

/-- A property that `f` keeps holds for every row after `modifyRow`. -/
theorem modifyRow_forall (f : Entry → Entry) (p : Entry → Prop) (hf : ∀ e, p e → p (f e))
    (row : Nat) (batch : List Entry) (h : ∀ e ∈ batch, p e) :
    ∀ e ∈ modifyRow f row batch, p e := by
  induction batch generalizing row with
  | nil =>
    intro e he
    cases row <;> simp [modifyRow] at he
  | cons entry rest ih =>
    cases row with
    | zero =>
      intro e he
      simp only [modifyRow, List.mem_cons] at he
      rcases he with he | he
      · rw [he]
        exact hf entry (h entry (List.mem_cons_self _ _))
      · exact h e (List.mem_cons_of_mem _ he)
    | succ row =>
      intro e he
      simp only [modifyRow, List.mem_cons] at he
      rcases he with he | he
      · rw [he]
        exact h entry (List.mem_cons_self _ _)
      · exact ih row (fun x hx => h x (List.mem_cons_of_mem _ hx)) e he

/-- A property that `f` keeps holds for every row after a run of `modifyRow`. -/
theorem foldl_modifyRow_forall (f : Entry → Entry) (p : Entry → Prop) (hf : ∀ e, p e → p (f e))
    (rows : List Nat) (batch : List Entry) (h : ∀ e ∈ batch, p e) :
    ∀ e ∈ rows.foldl (fun batch row => modifyRow f row batch) batch, p e := by
  induction rows generalizing batch with
  | nil => exact h
  | cons row rows ih =>
    rw [List.foldl_cons]
    exact ih _ (modifyRow_forall f p hf row batch h)

/-- The entries that `confirmEntries` returns are not expired when none of the batch is. -/
theorem confirmEntries_not_expired (dialog : List Entry → String → Bool → DialogOutcome)
    (state : ServiceState) (batch : List Entry) (siteUrl siteHost formUrl realm : String)
    (httpAuth : Bool) (h : ∀ e ∈ batch, e.isExpired = false) :
    ∀ e ∈ (confirmEntries dialog state batch siteUrl siteHost formUrl realm httpAuth).allowedEntries,
      e.isExpired = false := by
  have hdenied : ∀ e ∈ (dialog batch siteUrl httpAuth).disabled.foldl
      (fun batch row => modifyRow (fun entry => denyEntry entry siteHost formUrl realm) row batch)
      batch, e.isExpired = false :=
    foldl_modifyRow_forall _ (fun e => e.isExpired = false)
      (fun e he => (denyEntry_isExpired e siteHost formUrl realm).trans he) _ batch h
  have hallowed : ∀ e ∈ (dialog batch siteUrl httpAuth).selected.foldl
      (fun batch row => modifyRow (fun entry => allowEntry entry siteHost formUrl realm) row batch)
      ((dialog batch siteUrl httpAuth).disabled.foldl
        (fun batch row =>
          modifyRow (fun entry => denyEntry entry siteHost formUrl realm) row batch)
        batch), e.isExpired = false :=
    foldl_modifyRow_forall _ (fun e => e.isExpired = false)
      (fun e he => (allowEntry_isExpired e siteHost formUrl realm).trans he) _ _ hdenied
  intro e he
  unfold confirmEntries at he
  by_cases hskip : (batch.isEmpty || state.m_dialogActive) = true
  · rw [if_pos hskip] at he
    simp at he
  · rw [if_neg hskip] at he
    simp only at he
    by_cases haccepted : (dialog batch siteUrl httpAuth).accepted = true
    · rw [if_pos haccepted] at he
      obtain ⟨row, _, hrow⟩ := List.mem_filterMap.mp he
      have hmem := List.get?_mem hrow
      by_cases hremember : ((dialog batch siteUrl httpAuth).accepted
          && (dialog batch siteUrl httpAuth).remember) = true
      · rw [if_pos hremember] at hmem
        exact hallowed e hmem
      · rw [if_neg hremember] at hmem
        exact hdenied e hmem
    · rw [if_neg haccepted] at he
      simp at he

/-- An expired entry is denied while expired credentials are not allowed. -/
theorem checkAccess_expired (settings : BrowserSettings) (entry : Entry)
    (siteHost formHost realm : String) (hexpired : entry.isExpired = true)
    (hallow : settings.allowExpiredCredentials = false) :
    checkAccess settings entry siteHost formHost realm = Access.Denied := by
  simp [checkAccess, hexpired, hallow]

/-- A request that is not routed to HTTP-auth confirmation returns no expired entry
while expired credentials are not allowed. -/
theorem findMatchingEntries_not_expired {U J : Type} (api : QUrlApi U)
    (settings : BrowserSettings) (prepareEntry : Entry → J)
    (dialog : List Entry → String → Bool → DialogOutcome) (state : ServiceState)
    (found : List Entry) (siteUrl formUrl realm : String) (httpAuth : Bool)
    (hallow : settings.allowExpiredCredentials = false)
    (hroute : routedToHttpAuthConfirmation settings httpAuth = false) :
    ∃ entries : List Entry,
      (findMatchingEntries api settings prepareEntry dialog state found siteUrl formUrl realm
        httpAuth).1 = entries.map prepareEntry
      ∧ ∀ e ∈ entries, e.isExpired = false := by
  have hnot : ∀ (siteHost formHost : String) (e : Entry),
      checkAccess settings e siteHost formHost realm ≠ Access.Denied → e.isExpired = false := by
    intro siteHost formHost e hne
    cases hexp : e.isExpired
    · rfl
    · exact absurd (checkAccess_expired settings e siteHost formHost realm hexp hallow) hne
  have haccepted : ∀ e ∈ (classifyEntries settings found (api.host (api.ofString siteUrl))
      (api.host (api.ofString formUrl)) realm httpAuth).pwEntries, e.isExpired = false := by
    intro e he
    rw [classifyEntries_eq] at he
    have hacc := (List.mem_filter.mp he).2
    apply hnot (api.host (api.ofString siteUrl)) (api.host (api.ofString formUrl))
    intro hdenied
    simp [acceptedWithoutConfirmation, hdenied] at hacc
  have hbatch : ∀ e ∈ (classifyEntries settings found (api.host (api.ofString siteUrl))
      (api.host (api.ofString formUrl)) realm httpAuth).pwEntriesToConfirm,
      e.isExpired = false := by
    intro e he
    rw [classifyEntries_eq] at he
    have hneeds := (List.mem_filter.mp he).2
    apply hnot (api.host (api.ofString siteUrl)) (api.host (api.ofString formUrl))
    intro hdenied
    simp [needsConfirmation, hroute, hdenied] at hneeds
  have hselected := confirmEntries_not_expired dialog state _ siteUrl
    (api.host (api.ofString siteUrl)) (api.host (api.ofString formUrl)) realm httpAuth hbatch
  have hkey : ∀ (pwEntries : List Entry) (after : ServiceState),
      (∀ e ∈ pwEntries, e.isExpired = false) →
      ∃ entries : List Entry,
        (if pwEntries.isEmpty then (([] : List J), after)
          else if !after.databaseOpened then ([], after)
          else ((sortEntries api settings pwEntries siteUrl formUrl).map prepareEntry, after)).1
          = entries.map prepareEntry
        ∧ ∀ e ∈ entries, e.isExpired = false := by
    intro pwEntries after hall
    by_cases hempty : pwEntries.isEmpty = true
    · rw [if_pos hempty]
      exact ⟨[], rfl, by simp⟩
    · rw [if_neg hempty]
      by_cases hopened : (!after.databaseOpened) = true
      · rw [if_pos hopened]
        exact ⟨[], rfl, by simp⟩
      · rw [if_neg hopened]
        exact ⟨_, rfl, fun e he =>
          hall e (mem_of_mem_sortEntries api settings pwEntries siteUrl formUrl e he)⟩
  have hpw : ∀ e ∈ (if !(confirmEntries dialog state
        (classifyEntries settings found (api.host (api.ofString siteUrl))
          (api.host (api.ofString formUrl)) realm httpAuth).pwEntriesToConfirm siteUrl
        (api.host (api.ofString siteUrl)) (api.host (api.ofString formUrl)) realm
        httpAuth).allowedEntries.isEmpty
      then (classifyEntries settings found (api.host (api.ofString siteUrl))
          (api.host (api.ofString formUrl)) realm httpAuth).pwEntries
        ++ (confirmEntries dialog state
          (classifyEntries settings found (api.host (api.ofString siteUrl))
            (api.host (api.ofString formUrl)) realm httpAuth).pwEntriesToConfirm siteUrl
          (api.host (api.ofString siteUrl)) (api.host (api.ofString formUrl)) realm
          httpAuth).allowedEntries
      else (classifyEntries settings found (api.host (api.ofString siteUrl))
          (api.host (api.ofString formUrl)) realm httpAuth).pwEntries), e.isExpired = false := by
    intro e he
    split at he
    · rcases List.mem_append.mp he with h | h
      · exact haccepted e h
      · exact hselected e h
    · exact haccepted e he
  exact hkey _ _ hpw

/-- C28: an expired entry is returned on the HTTP-auth route while expired credentials are
not allowed.  For an HTTP-auth request with the HTTP-auth confirmation not bypassed, the
expired entry is put to the dialog without `checkAccess` being asked, and once the user
selects it `findMatchingEntries` returns it, although `checkAccess` denies it; the same
request without HTTP-auth returns nothing.  On every request that is not routed to
HTTP-auth confirmation no returned entry is expired. -/
theorem findMatchingEntries_httpAuth_expired :
    findMatchingEntries simpleApi sampleSettings (fun entry => entry) acceptFirstDialog idleState
        [expiredEntry] "https://github.com" "https://github.com" "" true
      = ([expiredEntry], idleState)
    ∧ expiredEntry.isExpired = true
    ∧ sampleSettings.allowExpiredCredentials = false
    ∧ checkAccess sampleSettings expiredEntry "github.com" "github.com" "" = Access.Denied
    ∧ findMatchingEntries simpleApi sampleSettings (fun entry => entry) acceptFirstDialog idleState
        [expiredEntry] "https://github.com" "https://github.com" "" false
      = ([], idleState)
    ∧ (∀ {U : Type} (api : QUrlApi U) (settings : BrowserSettings)
        (dialog : List Entry → String → Bool → DialogOutcome) (state : ServiceState)
        (found : List Entry) (siteUrl formUrl realm : String) (httpAuth : Bool),
        settings.allowExpiredCredentials = false →
        (httpAuth = false ∨ settings.httpAuthPermission = true) →
        ∀ e ∈ (findMatchingEntries api settings (fun entry => entry) dialog state found siteUrl
          formUrl realm httpAuth).1, e.isExpired = false) := by
  refine ⟨by decide, by decide, by decide, by decide, by decide, ?_⟩
  intro U api settings dialog state found siteUrl formUrl realm httpAuth hallow hroute e he
  have hrouted : routedToHttpAuthConfirmation settings httpAuth = false := by
    unfold routedToHttpAuthConfirmation
    rcases hroute with h | h <;> simp [h]
  obtain ⟨entries, heq, hall⟩ := findMatchingEntries_not_expired api settings (fun entry => entry)
    dialog state found siteUrl formUrl realm httpAuth hallow hrouted
  rw [heq, List.map_id'] at he
  exact hall e he

theorem findMatchingEntries_httpAuth_expired_witness :
    findMatchingEntries simpleApi { sampleSettings with httpAuthPermission := true }
        (fun entry => entry) acceptFirstDialog idleState [expiredEntry, sampleEntry]
        "https://github.com" "https://github.com" "" true
      = ([sampleEntry], idleState)
    ∧ ∀ e ∈ (findMatchingEntries simpleApi { sampleSettings with httpAuthPermission := true }
        (fun entry => entry) acceptFirstDialog idleState [expiredEntry, sampleEntry]
        "https://github.com" "https://github.com" "" true).1, e.isExpired = false :=
  ⟨by decide,
    findMatchingEntries_httpAuth_expired.2.2.2.2.2 simpleApi
      { sampleSettings with httpAuthPermission := true } acceptFirstDialog idleState
      [expiredEntry, sampleEntry] "https://github.com" "https://github.com" "" true
      (by decide) (Or.inr (by decide))⟩

end BrowserService
